import Mathlib

/-!
# seentics-email: admission rate limiter and provider-webhook pipeline

A shallow embedding of
* `internal/middleware/api_key.go` (`Validate`, `checkRateLimit`, `hashAPIKey`),
* `internal/postal/webhooks.go` (`ParseWebhookEvent`, `GetMessageIDFromPayload`,
  `VerifyWebhookSignature`),
* `internal/postal/client.go` (`Client.SendEmail`),
* `internal/handlers/webhooks.go` (`HandlePostalWebhook`),
* `internal/handlers/emails.go` (`SendEmail`),
* `internal/handlers/api_keys.go` (`CreateAPIKey`, `generateAPIKey`),
* `internal/models` (`EmailStatus`, `EmailLog`, `Webhook`, `APIKey`),

followed by the properties proved about them.  Stateful code is written in
state-passing style: the counter store and the database are explicit values
that a call takes and returns.
-/

set_option autoImplicit false

namespace SeenticsEmail

/-! ## The counter store (Redis), as `checkRateLimit` uses it -/

/-- Errors a store command can answer with: `redis.Nil` (key absent), a
transport failure, and the server's refusal to increment past int64. -/
inductive RedisError where
  | Nil
  | conn
  | overflow
  deriving DecidableEq, Repr

/-- One key of the store: the integer it holds and its remaining time to
live in seconds (`none`: the key never expires). -/
structure RedisEntry where
  value : Int
  ttl : Option Nat
  deriving DecidableEq, Repr

/-- The client handle together with the server state behind it.  `readDown`
and `pipeDown` say whether a read, respectively a pipeline round trip,
currently fails in transport. -/
structure RedisClient where
  store : String → Option RedisEntry
  readDown : Bool
  pipeDown : Bool

/-- Largest value an INCR may produce (int64). -/
def maxInt64 : Int := 9223372036854775807

/-- Seconds in `time.Hour`. -/
def hourSeconds : Nat := 3600

/-- Commands queued on a pipeline. -/
inductive RedisCmd where
  | incr (key : String)
  | expire (key : String) (seconds : Nat)
  deriving DecidableEq, Repr

/-- `client.Get(ctx, key).Int()`: the count and the error.  An absent key
answers `(0, redis.Nil)`. -/
def RedisClient.GetInt (c : RedisClient) (key : String) : Int × Option RedisError :=
  if c.readDown then (0, some RedisError.conn)
  else
    match c.store key with
    | none => (0, some RedisError.Nil)
    | some e => (e.value, none)

/-- Server-side effect of one command.  INCR creates an absent key with value
1 and no expiry, keeps the expiry of a present key, and refuses to pass
int64; EXPIRE sets the time to live of a present key and ignores an absent
one. -/
def RedisClient.run (c : RedisClient) : RedisCmd → RedisClient × Option RedisError
  | RedisCmd.incr key =>
    match c.store key with
    | none =>
      ({ c with store := fun k => if k = key then some ⟨1, none⟩ else c.store k }, none)
    | some e =>
      if e.value ≥ maxInt64 then (c, some RedisError.overflow)
      else
        ({ c with store := fun k => if k = key then some ⟨e.value + 1, e.ttl⟩ else c.store k },
          none)
  | RedisCmd.expire key seconds =>
    match c.store key with
    | none => (c, none)
    | some e =>
      ({ c with store := fun k => if k = key then some ⟨e.value, some seconds⟩ else c.store k },
        none)

/-- The commands of a pipeline run in order; the first error is kept and the
later commands still run. -/
def RedisClient.runAll (c : RedisClient) : List RedisCmd → RedisClient × Option RedisError
  | [] => (c, none)
  | cmd :: rest =>
    let (c1, e1) := c.run cmd
    let (c2, e2) := c1.runAll rest
    (c2, if e1.isSome then e1 else e2)

/-- `pipe.Exec(ctx)`: a transport failure reaches no command; otherwise every
queued command runs. -/
def RedisClient.Exec (c : RedisClient) (cmds : List RedisCmd) : RedisClient × Option RedisError :=
  if c.pipeDown then (c, some RedisError.conn) else c.runAll cmds

/-! ## `internal/middleware/api_key.go` -/

/-- The middleware: `redisClient` is `nil` when Redis is not configured. -/
structure APIKeyMiddleware where
  redisClient : Option RedisClient

/-- `fmt.Sprintf("ratelimit:apikey:%d", keyID)`. -/
def rateLimitKey (keyID : Nat) : String :=
  "ratelimit:apikey:" ++ toString keyID

/-- `checkRateLimit`: the answer and the middleware with the store as the
call leaves it. -/
def checkRateLimit (m : APIKeyMiddleware) (keyID : Nat) (limit : Int) :
    Bool × APIKeyMiddleware :=
  match m.redisClient with
  | none => (true, m)
  | some c =>
    let key := rateLimitKey keyID
    let (count, err) := c.GetInt key
    if err ≠ none ∧ err ≠ some RedisError.Nil then (true, m)
    else if count ≥ limit then (false, m)
    else
      let (c', err') := c.Exec [RedisCmd.incr key, RedisCmd.expire key hourSeconds]
      (err' == none, { redisClient := some c' })

/-- The answers of `n` successive calls for one key and one limit, each call
starting from the store the previous one left. -/
def successiveCalls (keyID : Nat) (limit : Int) : Nat → APIKeyMiddleware → List Bool
  | 0, _ => []
  | n + 1, m =>
    (checkRateLimit m keyID limit).1 ::
      successiveCalls keyID limit n (checkRateLimit m keyID limit).2

/-- A store that answers every command: no transport failure on either path. -/
def RedisClient.healthy (c : RedisClient) : Prop :=
  c.readDown = false ∧ c.pipeDown = false

/-- A sample store: empty and healthy. -/
def emptyRedis : RedisClient :=
  { store := fun _ => none, readDown := false, pipeDown := false }

/-- A sample store whose pipeline round trip fails while reads succeed. -/
def pipeDownRedis : RedisClient :=
  { store := fun _ => none, readDown := false, pipeDown := true }

/-! ## JSON documents and the values `encoding/json` decodes them to -/

/-- Instants (`time.Time`), as a count on the clock; the zero value is `0`. -/
abbrev Time := Nat

/-- A well-formed JSON document.  A number keeps its literal text; an object
keeps its members in document order, duplicates included. -/
inductive JSON where
  | null
  | bool (b : Bool)
  | number (lit : String)
  | string (s : String)
  | array (items : List JSON)
  | object (members : List (String × JSON))

/-- Go values behind `interface{}` after decoding: `nil`, `bool`, `float64`
(named by the literal it was read from), `string`, `[]interface{}` and
`map[string]interface{}`.  A map is a list of entries with distinct keys. -/
inductive Any where
  | nil
  | bool (b : Bool)
  | float64 (lit : String)
  | string (s : String)
  | slice (items : List Any)
  | map (entries : List (String × Any))

/-- A `map[string]interface{}`; the nil map is the empty list. -/
abbrev GoMap := List (String × Any)

/-- `m[key] = v`: replaces the entry of a present key, adds an absent one. -/
def GoMap.set : GoMap → String → Any → GoMap
  | [], key, v => [(key, v)]
  | (k, w) :: rest, key, v =>
    if k = key then (k, v) :: rest else (k, w) :: GoMap.set rest key v

/-- `m[key]`, with `none` for an absent key. -/
def GoMap.get (m : GoMap) (key : String) : Option Any :=
  m.lookup key

/-- The two leaf conversions of the standard library that decoding relies on:
whether `strconv.ParseFloat(lit, 64)` accepts a number literal (it rejects
one that overflows float64), and `time.Time`'s reading of an RFC 3339
string. -/
structure Codec where
  parseFloat : String → Bool
  parseRFC3339 : String → Option Time

/-- Why a decode failed. -/
inductive JsonError where
  | malformed
  | typeMismatch
  | numberRange
  | timeFormat
  deriving DecidableEq, Repr

mutual
/-- Decoding a document into an `interface{}`. -/
def valueInterface (codec : Codec) : JSON → Except JsonError Any
  | JSON.null => Except.ok Any.nil
  | JSON.bool b => Except.ok (Any.bool b)
  | JSON.number lit =>
    if codec.parseFloat lit then Except.ok (Any.float64 lit)
    else Except.error JsonError.numberRange
  | JSON.string s => Except.ok (Any.string s)
  | JSON.array items =>
    match arrayInterface codec items with
    | Except.ok vs => Except.ok (Any.slice vs)
    | Except.error e => Except.error e
  | JSON.object members =>
    match objectInterface codec members [] with
    | Except.ok m => Except.ok (Any.map m)
    | Except.error e => Except.error e
/-- Decoding the items of an array, in order. -/
def arrayInterface (codec : Codec) : List JSON → Except JsonError (List Any)
  | [] => Except.ok []
  | x :: xs =>
    match valueInterface codec x with
    | Except.error e => Except.error e
    | Except.ok v =>
      match arrayInterface codec xs with
      | Except.ok vs => Except.ok (v :: vs)
      | Except.error e => Except.error e
/-- Decoding the members of an object into the map `m`, in document order:
a later duplicate of a key replaces the earlier value. -/
def objectInterface (codec : Codec) : List (String × JSON) → GoMap → Except JsonError GoMap
  | [], m => Except.ok m
  | (k, x) :: rest, m =>
    match valueInterface codec x with
    | Except.error e => Except.error e
    | Except.ok v => objectInterface codec rest (GoMap.set m k v)
end

/-! ## `internal/postal/webhooks.go` -/

/-- `WebhookEvent`. -/
structure WebhookEvent where
  Event : String
  Timestamp : Time
  UUID : String
  Payload : GoMap

/-- The zero `WebhookEvent` that `ParseWebhookEvent` declares before decoding. -/
def WebhookEvent.zero : WebhookEvent :=
  { Event := "", Timestamp := 0, UUID := "", Payload := [] }

def EventMessageSent : String := "MessageSent"
def EventMessageDelivered : String := "MessageDelivered"
def EventMessageBounced : String := "MessageBounced"
def EventMessageFailed : String := "MessageFailed"
def EventMessageHeld : String := "MessageHeld"
def EventMessageOpened : String := "MessageOpened"
def EventMessageClicked : String := "MessageLinkClicked"

/-- Case folding of one character as the decoder matches member names: ASCII
letters fold to lower case, and the Kelvin sign and the long s fold to `k`
and `s`. -/
def foldRune (c : Char) : Char :=
  if c = Char.ofNat 0x212A then 'k'
  else if c = Char.ofNat 0x17F then 's'
  else c.toLower

/-- Case-insensitive match of a member name against a field name. -/
def equalFold (a b : String) : Bool :=
  a.data.map foldRune == b.data.map foldRune

/-- The json tags of `WebhookEvent`, in field order. -/
def webhookEventFields : List String :=
  ["event", "timestamp", "uuid", "payload"]

/-- The field a member name selects: the exact tag if there is one, else the
first tag it matches without regard to case; `none` for an unknown member. -/
def findField (key : String) : Option String :=
  if webhookEventFields.contains key then some key
  else webhookEventFields.find? (fun f => equalFold key f)

/-- Decoding one member value into the field it selects.  `null` leaves a
string or a time as it is and resets the map to nil; a JSON string fills a
string field; a time needs a JSON string in RFC 3339 form; the map takes the
members of a JSON object on top of the entries it already has. -/
def decodeField (codec : Codec) (ev : WebhookEvent) (field : String) (v : JSON) :
    Except JsonError WebhookEvent :=
  if field = "event" then
    match v with
    | JSON.null => Except.ok ev
    | JSON.string s => Except.ok { ev with Event := s }
    | _ => Except.error JsonError.typeMismatch
  else if field = "timestamp" then
    match v with
    | JSON.null => Except.ok ev
    | JSON.string s =>
      match codec.parseRFC3339 s with
      | some t => Except.ok { ev with Timestamp := t }
      | none => Except.error JsonError.timeFormat
    | _ => Except.error JsonError.timeFormat
  else if field = "uuid" then
    match v with
    | JSON.null => Except.ok ev
    | JSON.string s => Except.ok { ev with UUID := s }
    | _ => Except.error JsonError.typeMismatch
  else
    match v with
    | JSON.null => Except.ok { ev with Payload := [] }
    | JSON.object members =>
      match objectInterface codec members ev.Payload with
      | Except.ok m => Except.ok { ev with Payload := m }
      | Except.error e => Except.error e
    | _ => Except.error JsonError.typeMismatch

/-- Decoding the members of the top-level object in document order; a member
that selects no field is skipped.  Decoding ends at the first member that
fails: `ParseWebhookEvent` discards the event whenever any error is reported. -/
def decodeMembers (codec : Codec) : List (String × JSON) → WebhookEvent →
    Except JsonError WebhookEvent
  | [], ev => Except.ok ev
  | (k, v) :: rest, ev =>
    match findField k with
    | none => decodeMembers codec rest ev
    | some field =>
      match decodeField codec ev field v with
      | Except.error e => Except.error e
      | Except.ok ev' => decodeMembers codec rest ev'

/-- `json.Unmarshal(data, &event)` on a well-formed document: `null` leaves
the event untouched, an object is decoded member by member, and any other
document cannot be stored in a struct. -/
def unmarshalWebhookEvent (codec : Codec) : JSON → Except JsonError WebhookEvent
  | JSON.null => Except.ok WebhookEvent.zero
  | JSON.object members => decodeMembers codec members WebhookEvent.zero
  | _ => Except.error JsonError.typeMismatch

/-- `ParseWebhookEvent`.  The bytes are given as the outcome of the decoder's
syntax check: `none` when they are not well-formed JSON, else the document. -/
def ParseWebhookEvent (codec : Codec) (data : Option JSON) : Except JsonError WebhookEvent :=
  match data with
  | none => Except.error JsonError.malformed
  | some doc => unmarshalWebhookEvent codec doc

/-- `GetMessageIDFromPayload`. -/
def GetMessageIDFromPayload (payload : GoMap) : String :=
  match payload.get "message_id" with
  | some (Any.string msgID) => msgID
  | _ =>
    match payload.get "message" with
    | some (Any.map msg) =>
      match GoMap.get msg "id" with
      | some (Any.string msgID) => msgID
      | _ => ""
    | _ => ""

/-! ## Documents that fit `WebhookEvent` -/

mutual
/-- Every number literal inside the document is accepted by the float64
conversion. -/
def numbersFit (codec : Codec) : JSON → Bool
  | JSON.null => true
  | JSON.bool _ => true
  | JSON.number lit => codec.parseFloat lit
  | JSON.string _ => true
  | JSON.array items => itemsFit codec items
  | JSON.object members => membersFit codec members
/-- `numbersFit` for every item of an array. -/
def itemsFit (codec : Codec) : List JSON → Bool
  | [] => true
  | x :: xs => numbersFit codec x && itemsFit codec xs
/-- `numbersFit` for every member value of an object. -/
def membersFit (codec : Codec) : List (String × JSON) → Bool
  | [] => true
  | (_, x) :: rest => numbersFit codec x && membersFit codec rest
end

/-- A member value has the type of the field it selects: a string or `null`
for `event` and `uuid`, an RFC 3339 string or `null` for `timestamp`, an
object whose numbers fit float64 or `null` for `payload`. -/
def memberFits (codec : Codec) (field : String) (v : JSON) : Bool :=
  if field = "event" ∨ field = "uuid" then
    match v with
    | JSON.null => true
    | JSON.string _ => true
    | _ => false
  else if field = "timestamp" then
    match v with
    | JSON.null => true
    | JSON.string s => (codec.parseRFC3339 s).isSome
    | _ => false
  else
    match v with
    | JSON.null => true
    | JSON.object members => membersFit codec members
    | _ => false

/-- A document fits `WebhookEvent`: it is `null`, or an object in which every
member that selects a field has that field's type. -/
def fitsWebhookEvent (codec : Codec) : JSON → Bool
  | JSON.null => true
  | JSON.object members =>
    members.all (fun kv =>
      match findField kv.1 with
      | none => true
      | some field => memberFits codec field kv.2)
  | _ => false

/-! ## `internal/models/email_log.go`, `internal/models/webhook.go` -/

/-- `type EmailStatus string`. -/
abbrev EmailStatus := String

def EmailStatusQueued : EmailStatus := "queued"
def EmailStatusSent : EmailStatus := "sent"
def EmailStatusDelivered : EmailStatus := "delivered"
def EmailStatusBounced : EmailStatus := "bounced"
def EmailStatusFailed : EmailStatus := "failed"
def EmailStatusComplaint : EmailStatus := "complaint"

/-- A row of `email_logs` (the `User` relationship is not a column). -/
structure EmailLog where
  ID : Nat
  UserID : Nat
  MessageID : String
  PostalMessageID : String
  From : String
  To : String
  Subject : String
  Status : EmailStatus
  ErrorMessage : String
  OpenedAt : Option Time
  ClickedAt : Option Time
  BouncedAt : Option Time
  DeliveredAt : Option Time
  CreatedAt : Time
  UpdatedAt : Time
  DeletedAt : Option Time
  deriving DecidableEq, Repr

/-- A row of `webhooks`. -/
structure Webhook where
  ID : Nat
  UserID : Nat
  URL : String
  Events : String
  Secret : String
  IsActive : Bool
  LastTriggeredAt : Option Time
  CreatedAt : Time
  UpdatedAt : Time
  DeletedAt : Option Time
  deriving DecidableEq, Repr

/-! ## The database behind `database.DB`, as the webhook handler uses it -/

/-- The tables the handler reads and writes, rows in storage order. -/
structure DB where
  emailLogs : List EmailLog
  webhooks : List Webhook
  deriving DecidableEq, Repr

/-- A value stored under a column name in an `updates` map. -/
inductive ColumnValue where
  | status (s : EmailStatus)
  | time (t : Time)
  deriving DecidableEq, Repr

/-- The row with the lowest primary key among `rows` (the earliest of them on
a tie), as `ORDER BY id LIMIT 1` selects it. -/
def lowestID : List EmailLog → Option EmailLog
  | [] => none
  | r :: rest =>
    match lowestID rest with
    | none => some r
    | some r' => if r.ID ≤ r'.ID then some r else some r'

/-- `DB.Where("postal_message_id = ?", id).First(&emailLog)`: among the rows
that are not soft-deleted and carry the identifier, the one with the lowest
primary key; `none` stands for the record-not-found error. -/
def DB.firstByPostalMessageID (db : DB) (id : String) : Option EmailLog :=
  lowestID (db.emailLogs.filter (fun r => r.PostalMessageID == id && r.DeletedAt.isNone))

/-- Writing one entry of an `updates` map into a row. -/
def EmailLog.assign (r : EmailLog) (u : String × ColumnValue) : EmailLog :=
  match u with
  | (col, ColumnValue.status s) => if col = "status" then { r with Status := s } else r
  | (col, ColumnValue.time t) =>
    if col = "delivered_at" then { r with DeliveredAt := some t }
    else if col = "bounced_at" then { r with BouncedAt := some t }
    else if col = "opened_at" then { r with OpenedAt := some t }
    else if col = "clicked_at" then { r with ClickedAt := some t }
    else r

/-- The SET clause of an update: every entry of the map, and `updated_at`,
which the ORM refreshes from its own clock reading `stamp` on every update. -/
def EmailLog.applyUpdates (r : EmailLog) (updates : List (String × ColumnValue))
    (stamp : Time) : EmailLog :=
  { updates.foldl EmailLog.assign r with UpdatedAt := stamp }

/-- `DB.Model(&emailLog).Updates(updates)`: the update is addressed by the
primary key of the model and skips soft-deleted rows; a model whose primary
key is zero addresses no row and the ORM refuses the statement. -/
def DB.Updates (db : DB) (model : EmailLog) (updates : List (String × ColumnValue))
    (stamp : Time) : DB :=
  if model.ID = 0 then db
  else
    { db with
      emailLogs := db.emailLogs.map (fun r =>
        if r.ID = model.ID ∧ r.DeletedAt = none then r.applyUpdates updates stamp else r) }

/-- `DB.Where("user_id = ? AND is_active = ?", userID, true).Find(&webhooks)`. -/
def DB.activeWebhooks (db : DB) (userID : Nat) : List Webhook :=
  db.webhooks.filter (fun w => w.UserID == userID && w.IsActive && w.DeletedAt.isNone)

/-! ## `internal/handlers/webhooks.go` -/

/-- What `c.JSON(code, gin.H{key: text})` answers. -/
structure Response where
  code : Nat
  key : String
  text : String
  deriving DecidableEq, Repr

/-- The `updates` map that the `switch event.Event` of `HandlePostalWebhook`
fills, entries in the order they are written. -/
def eventUpdates (event : String) (now : Time) : List (String × ColumnValue) :=
  if event = EventMessageDelivered then
    [("status", ColumnValue.status EmailStatusDelivered), ("delivered_at", ColumnValue.time now)]
  else if event = EventMessageBounced then
    [("status", ColumnValue.status EmailStatusBounced), ("bounced_at", ColumnValue.time now)]
  else if event = EventMessageFailed then
    [("status", ColumnValue.status EmailStatusFailed)]
  else if event = EventMessageOpened then
    [("opened_at", ColumnValue.time now)]
  else if event = EventMessageClicked then
    [("clicked_at", ColumnValue.time now)]
  else []

/-- The part of `HandlePostalWebhook` that follows a successful parse. -/
def handleEvent (db : DB) (now stamp : Time) (event : WebhookEvent) : Response × DB :=
  let messageID := GetMessageIDFromPayload event.Payload
  if messageID = "" then (⟨200, "message", "No message ID in payload"⟩, db)
  else
    match db.firstByPostalMessageID messageID with
    | none => (⟨200, "message", "Email log not found"⟩, db)
    | some emailLog =>
      let updates := eventUpdates event.Event now
      let db' := if updates.length > 0 then db.Updates emailLog updates stamp else db
      let _webhooks := db'.activeWebhooks emailLog.UserID
      (⟨200, "message", "Webhook processed"⟩, db')

/-- `HandlePostalWebhook`.  `body` is `none` when reading the request body
fails, else the bytes read (as `ParseWebhookEvent` takes them); `now` is the
handler's `time.Now()` and `stamp` the ORM's clock reading at the update.
The result is the response and the database the request leaves. -/
def HandlePostalWebhook (codec : Codec) (db : DB) (now stamp : Time)
    (body : Option (Option JSON)) : Response × DB :=
  match body with
  | none => (⟨400, "error", "Failed to read request body"⟩, db)
  | some data =>
    match ParseWebhookEvent codec data with
    | Except.error _ => (⟨400, "error", "Invalid webhook payload"⟩, db)
    | Except.ok event => handleEvent db now stamp event

/-! ## Bytes, hex encoding and the digests of the standard library -/

/-- The UTF-8 bytes of a list of characters. -/
def bytesOfChars : List Char → List UInt8
  | [] => []
  | c :: cs => String.utf8EncodeChar c ++ bytesOfChars cs

/-- `[]byte(s)`: the bytes of a string. -/
def bytesOf (s : String) : List UInt8 :=
  bytesOfChars s.data

/-- The digits `hex.EncodeToString` writes. -/
def hexDigits : List Char :=
  ['0', '1', '2', '3', '4', '5', '6', '7', '8', '9', 'a', 'b', 'c', 'd', 'e', 'f']

/-- The digit for a value below 16. -/
def hexDigit (n : Nat) : Char :=
  hexDigits.getD n '0'

/-- The two digits of one byte, high nibble first. -/
def hexByte (b : UInt8) : List Char :=
  [hexDigit (b.toNat / 16), hexDigit (b.toNat % 16)]

/-- The characters of `hex.EncodeToString(bs)`. -/
def hexChars : List UInt8 → List Char
  | [] => []
  | b :: bs => hexByte b ++ hexChars bs

/-- `hex.EncodeToString`. -/
def hexEncode (bs : List UInt8) : String :=
  String.mk (hexChars bs)

/-- The digests the code takes from `crypto/sha256` and `crypto/hmac`:
`sha256.Sum256`, which answers 32 bytes, and HMAC-SHA256 of a message under
a key, which answers 32 bytes as well. -/
structure Crypto where
  sha256 : List UInt8 → List UInt8
  sha256_size : ∀ msg, (sha256 msg).length = 32
  hmacSHA256 : List UInt8 → List UInt8 → List UInt8
  hmacSHA256_size : ∀ key msg, (hmacSHA256 key msg).length = 32

/-- A stand-in with digests of the right size, to run examples on; it is not
SHA-256. -/
def stubCrypto : Crypto :=
  { sha256 := fun _ => List.replicate 32 0
    sha256_size := fun _ => List.length_replicate 32 0
    hmacSHA256 := fun _ _ => List.replicate 32 171
    hmacSHA256_size := fun _ _ => List.length_replicate 32 171 }

/-- `VerifyWebhookSignature`.  `signature` and `secret` are Go strings, given
by their bytes; `hmac.Equal` answers whether the two byte slices are equal. -/
def VerifyWebhookSignature (crypto : Crypto) (payload signature secret : List UInt8) : Bool :=
  let expectedMAC := hexEncode (crypto.hmacSHA256 secret payload)
  decide (signature = bytesOf expectedMAC)

/-- The signature a sender computes for a payload: the lower-case hex text
of the HMAC-SHA256 of the payload under the secret, as bytes (the value
`VerifyWebhookSignature` names `expectedMAC`). -/
def expectedSignature (crypto : Crypto) (payload secret : List UInt8) : List UInt8 :=
  bytesOf (hexEncode (crypto.hmacSHA256 secret payload))

/-! ## `internal/models/api_key.go`, `internal/handlers/api_keys.go` -/

/-- A row of `api_keys` (the `User` relationship is not a column). -/
structure APIKey where
  ID : Nat
  UserID : Nat
  Name : String
  Key : String
  KeyPrefix : String
  Permissions : String
  RateLimit : Int
  LastUsedAt : Option Time
  CreatedAt : Time
  UpdatedAt : Time
  DeletedAt : Option Time
  deriving DecidableEq, Repr

/-- `CreateAPIKeyRequest`. -/
structure CreateAPIKeyRequest where
  Name : String
  RateLimit : Int
  deriving DecidableEq, Repr

/-- What `CreateAPIKey` answers: an error body, or 201 with the
`APIKeyResponse` of the new key. -/
inductive APIKeyReply where
  | failure (r : Response)
  | created (id : Nat) (name key keyPrefix : String) (rateLimit : Int) (createdAt : Time)
  deriving DecidableEq, Repr

/-- `generateAPIKey`.  `entropy` is what `rand.Read` does with the 32-byte
buffer: an error, or the bytes it filled the buffer with. -/
def generateAPIKey (entropy : Except String (List UInt8)) : Except String String :=
  match entropy with
  | Except.error e => Except.error e
  | Except.ok bytes => Except.ok ("sk_" ++ hexEncode bytes)

/-- `hashAPIKey` (the same function in the handlers and in the middleware). -/
def hashAPIKey (crypto : Crypto) (key : String) : String :=
  hexEncode (crypto.sha256 (bytesOf key))

/-- The slice expression `s[:n]`: the first `n` bytes of the string, and
`none` (a run-time panic) when the string is shorter. -/
def slicePrefix (s : String) (n : Nat) : Option String :=
  if n ≤ s.utf8ByteSize then some (s.extract 0 ⟨n⟩) else none

/-- The primary key the database gives the next row of a table whose rows
carry the keys `ids`. -/
def nextID (ids : List Nat) : Nat :=
  ids.foldl max 0 + 1

/-- `DB.Create(&apiKey)` on `api_keys`: the unique index on `key` refuses a
row whose key is already stored; otherwise the row is stored with a fresh
primary key, the timestamps of the ORM and, for a zero rate limit, the
column default 1000. -/
def createAPIKey (keys : List APIKey) (row : APIKey) (stamp : Time) :
    Except String APIKey × List APIKey :=
  if keys.any (fun k => k.Key == row.Key) then (Except.error "duplicate key", keys)
  else
    let stored : APIKey :=
      { row with
        ID := nextID (keys.map APIKey.ID)
        RateLimit := if row.RateLimit = 0 then 1000 else row.RateLimit
        CreatedAt := stamp
        UpdatedAt := stamp }
    (Except.ok stored, keys ++ [stored])

/-- `CreateAPIKey`.  `bound` is the outcome of `c.ShouldBindJSON(&req)` and
`keys` the `api_keys` table; the result is the answer and the table the
request leaves.  A panic of the slice expression is answered by the
framework's recovery with an empty 500. -/
def CreateAPIKey (crypto : Crypto) (keys : List APIKey) (stamp : Time) (userID : Nat)
    (bound : Except String CreateAPIKeyRequest) (entropy : Except String (List UInt8)) :
    APIKeyReply × List APIKey :=
  match bound with
  | Except.error e => (APIKeyReply.failure ⟨400, "error", e⟩, keys)
  | Except.ok req =>
    match generateAPIKey entropy with
    | Except.error _ =>
      (APIKeyReply.failure ⟨500, "error", "Failed to generate API key"⟩, keys)
    | Except.ok rawKey =>
      let hashedKey := hashAPIKey crypto rawKey
      match slicePrefix rawKey 8 with
      | none => (APIKeyReply.failure ⟨500, "", ""⟩, keys)
      | some keyPrefix =>
        let apiKey : APIKey :=
          { ID := 0, UserID := userID, Name := req.Name, Key := hashedKey,
            KeyPrefix := keyPrefix, Permissions := "[]", RateLimit := req.RateLimit,
            LastUsedAt := none, CreatedAt := 0, UpdatedAt := 0, DeletedAt := none }
        match createAPIKey keys apiKey stamp with
        | (Except.error _, keys') =>
          (APIKeyReply.failure ⟨500, "error", "Failed to create API key"⟩, keys')
        | (Except.ok stored, keys') =>
          (APIKeyReply.created stored.ID stored.Name rawKey stored.KeyPrefix stored.RateLimit
            stored.CreatedAt, keys')

/-! ## `Validate` (`internal/middleware/api_key.go`) -/

/-- How the middleware leaves a request: handed on to the handler with
`userID` and `apiKeyID` set in the context, or aborted with an answer. -/
inductive Admission where
  | next (userID apiKeyID : Nat)
  | abort (r : Response)
  deriving DecidableEq, Repr

/-- The row with the lowest primary key among `rows`. -/
def lowestKeyID : List APIKey → Option APIKey
  | [] => none
  | r :: rest =>
    match lowestKeyID rest with
    | none => some r
    | some r' => if r.ID ≤ r'.ID then some r else some r'

/-- `DB.Where("key = ?", hashedKey).First(&key)` on `api_keys`: the row that
is not soft-deleted, carries the hash and has the lowest primary key. -/
def firstByKey (keys : List APIKey) (hashedKey : String) : Option APIKey :=
  lowestKeyID (keys.filter (fun k => k.Key == hashedKey && k.DeletedAt.isNone))

/-- `DB.Model(&key).Update("last_used_at", now)`: addressed by the primary
key of the model, skipping soft-deleted rows; `updated_at` is refreshed from
the ORM's clock reading `stamp`, and a zero primary key addresses no row. -/
def updateLastUsedAt (keys : List APIKey) (model : APIKey) (now stamp : Time) : List APIKey :=
  if model.ID = 0 then keys
  else
    keys.map (fun k =>
      if k.ID = model.ID ∧ k.DeletedAt = none then
        { k with LastUsedAt := some now, UpdatedAt := stamp }
      else k)

/-- The handler function `Validate` returns.  `apiKey` is the value of the
`X-API-Key` header (empty when the header is missing) and `keys` the
`api_keys` table; the result is the outcome, the table and the middleware
(with the counter store) as the request leaves them. -/
def Validate (crypto : Crypto) (m : APIKeyMiddleware) (keys : List APIKey) (now stamp : Time)
    (apiKey : String) : Admission × List APIKey × APIKeyMiddleware :=
  if apiKey = "" then (Admission.abort ⟨401, "error", "API key required"⟩, keys, m)
  else
    let hashedKey := hashAPIKey crypto apiKey
    match firstByKey keys hashedKey with
    | none => (Admission.abort ⟨401, "error", "Invalid API key"⟩, keys, m)
    | some key =>
      let (allowed, m') := checkRateLimit m key.ID key.RateLimit
      if !allowed then (Admission.abort ⟨429, "error", "Rate limit exceeded"⟩, keys, m')
      else (Admission.next key.UserID key.ID, updateLastUsedAt keys key now stamp, m')

/-! ## `internal/postal/client.go`, `internal/handlers/emails.go` -/

/-- `SendEmailRequest` of the handler, as bound from the request body. -/
structure SendEmailRequest where
  To : List String
  From : String
  Subject : String
  HTMLBody : String
  PlainBody : String
  Headers : Option (List (String × String))
  deriving DecidableEq, Repr

/-- `postal.SendEmailRequest` (no attachment is ever set by the handler). -/
structure PostalSendEmailRequest where
  To : List String
  From : String
  Subject : String
  HTMLBody : String
  PlainBody : String
  Headers : Option (List (String × String))
  deriving DecidableEq, Repr

/-- `postal.SendEmailResponse`, with the fields the code reads. -/
structure PostalSendEmailResponse where
  Status : String
  MessageID : String
  Messages : List String
  deriving DecidableEq, Repr

/-- The exchange with the mail provider behind `Client.SendEmail`: the request
is marshalled, posted and the reply unmarshalled; an error stands for a
failure of any of the three. -/
abbrev Transport := PostalSendEmailRequest → Except String PostalSendEmailResponse

/-- `Client.SendEmail`: the exchange, then the check of the reply status. -/
def ClientSendEmail (transport : Transport) (req : PostalSendEmailRequest) :
    Except String PostalSendEmailResponse :=
  match transport req with
  | Except.error e => Except.error e
  | Except.ok result =>
    if result.Status ≠ "success" then Except.error "postal API error"
    else Except.ok result

/-- What `SendEmail` answers: an error body, or 200 with `message_id`,
`postal_message_id` and `status`. -/
inductive SendEmailReply where
  | failure (r : Response)
  | sent (messageID postalMessageID status : String)
  deriving DecidableEq, Repr

/-- The HTTP status of an answer of `SendEmail`. -/
def SendEmailReply.code : SendEmailReply → Nat
  | SendEmailReply.failure r => r.code
  | SendEmailReply.sent _ _ _ => 200

/-- `DB.Create(&emailLog)`: the unique index on `message_id` refuses a row
whose message identifier is already stored; otherwise the row is stored with
a fresh primary key and the ORM's timestamps. -/
def DB.CreateEmailLog (db : DB) (row : EmailLog) (stamp : Time) : Except String EmailLog × DB :=
  if db.emailLogs.any (fun r => r.MessageID == row.MessageID) then
    (Except.error "duplicate key", db)
  else
    let stored : EmailLog :=
      { row with
        ID := nextID (db.emailLogs.map EmailLog.ID)
        CreatedAt := stamp
        UpdatedAt := stamp }
    (Except.ok stored, { db with emailLogs := db.emailLogs ++ [stored] })

/-- The loop `for _, recipient := range req.To` of `SendEmail`: one `Create`
per recipient, whose error is printed and otherwise ignored.  `clock i` is the
ORM's clock reading at the `i`-th `Create`. -/
def logRecipients (db : DB) (clock : Nat → Time) (userID : Nat) (messageID postalMessageID : String)
    (req : SendEmailRequest) : Nat → List String → DB
  | _, [] => db
  | i, recipient :: rest =>
    let emailLog : EmailLog :=
      { ID := 0, UserID := userID, MessageID := messageID,
        PostalMessageID := postalMessageID, From := req.From, To := recipient,
        Subject := req.Subject, Status := EmailStatusSent, ErrorMessage := "",
        OpenedAt := none, ClickedAt := none, BouncedAt := none, DeliveredAt := none,
        CreatedAt := 0, UpdatedAt := 0, DeletedAt := none }
    logRecipients (db.CreateEmailLog emailLog (clock i)).2 clock userID messageID
      postalMessageID req (i + 1) rest

/-- `SendEmail`.  `bound` is the outcome of `c.ShouldBindJSON(&req)` and
`uuid` the value of `uuid.New().String()`; the result is the answer, the
database the request leaves and the requests made to the mail provider. -/
def SendEmail (transport : Transport) (db : DB) (clock : Nat → Time) (userID : Nat)
    (uuid : String) (bound : Except String SendEmailRequest) :
    SendEmailReply × DB × List PostalSendEmailRequest :=
  match bound with
  | Except.error e => (SendEmailReply.failure ⟨400, "error", e⟩, db, [])
  | Except.ok req =>
    if req.HTMLBody = "" ∧ req.PlainBody = "" then
      (SendEmailReply.failure ⟨400, "error", "Either html_body or plain_body is required"⟩,
        db, [])
    else
      let messageID := uuid
      let postalReq : PostalSendEmailRequest :=
        { To := req.To, From := req.From, Subject := req.Subject, HTMLBody := req.HTMLBody,
          PlainBody := req.PlainBody, Headers := req.Headers }
      match ClientSendEmail transport postalReq with
      | Except.error e =>
        (SendEmailReply.failure ⟨500, "error", "Failed to send email: " ++ e⟩, db, [postalReq])
      | Except.ok postalResp =>
        let postalMessageID := if postalResp.MessageID ≠ "" then postalResp.MessageID else ""
        (SendEmailReply.sent messageID postalMessageID "sent",
          logRecipients db clock userID messageID postalMessageID req 0 req.To, [postalReq])

/-! ## Concurrent calls of `checkRateLimit` -/

/-- Where one call of `checkRateLimit` stands: before its read, between a
read that passed the check and its pipeline, or returned. -/
inductive CallState where
  | ready
  | passed
  | returned (answer : Bool)
  deriving DecidableEq, Repr

/-- One store operation of a call on a configured client: the read with the
check that follows it, or the increment/expire pipeline with the return. -/
def stepCall (keyID : Nat) (limit : Int) (c : RedisClient) : CallState → CallState × RedisClient
  | CallState.ready =>
    let (count, err) := c.GetInt (rateLimitKey keyID)
    if err ≠ none ∧ err ≠ some RedisError.Nil then (CallState.returned true, c)
    else if count ≥ limit then (CallState.returned false, c)
    else (CallState.passed, c)
  | CallState.passed =>
    let (c', err') :=
      c.Exec [RedisCmd.incr (rateLimitKey keyID), RedisCmd.expire (rateLimitKey keyID) hourSeconds]
    (CallState.returned (err' == none), c')
  | CallState.returned answer => (CallState.returned answer, c)

/-- The calls run against one store in the order of `schedule`: each entry
names the call that performs its next store operation. -/
def runSchedule (keyID : Nat) (limit : Int) :
    List Nat → RedisClient × List CallState → RedisClient × List CallState
  | [], st => st
  | i :: rest, (c, calls) =>
    match calls.get? i with
    | none => runSchedule keyID limit rest (c, calls)
    | some call =>
      runSchedule keyID limit rest
        ((stepCall keyID limit c call).2, calls.set i (stepCall keyID limit c call).1)

/-- The schedule in which `n` calls, numbered from `k`, run one after
another: each call performs its read and then its pipeline before the next
call starts. -/
def serialSchedule : Nat → Nat → List Nat
  | _, 0 => []
  | k, n + 1 => k :: k :: serialSchedule (k + 1) n

/-- The number of calls that returned `true`. -/
def admittedCount (calls : List CallState) : Nat :=
  calls.count (CallState.returned true)

/-- A sample provider exchange that accepts every request under the
identifier `pm-9`. -/
def acceptingTransport : Transport :=
  fun _ => Except.ok ⟨"success", "pm-9", []⟩

/-- A sample send request with an HTML body for the given recipients. -/
def sampleSend (recipients : List String) : SendEmailRequest :=
  { To := recipients, From := "a@example.com", Subject := "hello",
    HTMLBody := "<p>hello</p>", PlainBody := "", Headers := none }

/-- A sample API key row: identifier 3, limit 2, stored under the hash that
`stubCrypto` gives every key. -/
def sampleKey : APIKey :=
  { ID := 3, UserID := 7, Name := "ci", Key := hashAPIKey stubCrypto "sk_live",
    KeyPrefix := "sk_live", Permissions := "[]", RateLimit := 2, LastUsedAt := none,
    CreatedAt := 10, UpdatedAt := 10, DeletedAt := none }

/-- A sample store in which the counter of key 3 holds 1 and expires in five
seconds. -/
def agedRedis : RedisClient :=
  { store := fun k => if k = rateLimitKey 3 then some ⟨1, some 5⟩ else none,
    readDown := false, pipeDown := false }

/-- The number a run of decimal digits stands for. -/
def digitsValue (cs : List Char) : Nat :=
  cs.foldl (fun acc c => 10 * acc + (c.toNat - 48)) 0

/-- A sample message, accepted by the provider under the identifier `pm-1`. -/
def sampleLog : EmailLog :=
  { ID := 1, UserID := 7, MessageID := "m-1", PostalMessageID := "pm-1",
    From := "a@example.com", To := "b@example.com", Subject := "hello",
    Status := EmailStatusSent, ErrorMessage := "", OpenedAt := none, ClickedAt := none,
    BouncedAt := none, DeliveredAt := none, CreatedAt := 10, UpdatedAt := 10,
    DeletedAt := none }

/-- The sample message after a bounce was recorded. -/
def bouncedLog : EmailLog :=
  { sampleLog with Status := EmailStatusBounced, BouncedAt := some 20, UpdatedAt := 20 }

/-- The document with `event` set to the given kind and `payload.message_id`
set to `pm-1`. -/
def sampleDoc (kind : String) : JSON :=
  JSON.object [("event", JSON.string kind),
    ("payload", JSON.object [("message_id", JSON.string "pm-1")])]

/-- The event `sampleDoc kind` parses to. -/
def sampleEvent (kind : String) : WebhookEvent :=
  { Event := kind, Timestamp := 0, UUID := "", Payload := [("message_id", Any.string "pm-1")] }

/-- A codec that accepts every number and reads no time: enough to run
examples whose documents carry no timestamp. -/
def sampleCodec : Codec :=
  { parseFloat := fun _ => true, parseRFC3339 := fun _ => none }

/-! ## Properties of the rate limiter -/

theorem checkRateLimit_admits (c : RedisClient) (keyID : Nat) (limit : Int)
    (hc : c.healthy) (hlt : (c.GetInt (rateLimitKey keyID)).1 < limit)
    (hmax : limit ≤ maxInt64) :
    ∃ c', checkRateLimit ⟨some c⟩ keyID limit = (true, ⟨some c'⟩) ∧ c'.healthy ∧
      (c'.GetInt (rateLimitKey keyID)).1 = (c.GetInt (rateLimitKey keyID)).1 + 1 := by
  obtain ⟨hr, hp⟩ := hc
  cases hs : c.store (rateLimitKey keyID) with
  | none =>
    simp [RedisClient.GetInt, hr, hs] at hlt
    have h1 : ¬ limit ≤ 0 := not_le.mpr hlt
    simp [checkRateLimit, RedisClient.GetInt, RedisClient.Exec, RedisClient.runAll,
      RedisClient.run, RedisClient.healthy, hr, hp, hs, h1]
  | some e =>
    simp [RedisClient.GetInt, hr, hs] at hlt
    have h1 : ¬ limit ≤ e.value := not_le.mpr hlt
    have h2 : ¬ maxInt64 ≤ e.value := fun h => h1 (le_trans hmax h)
    simp [checkRateLimit, RedisClient.GetInt, RedisClient.Exec, RedisClient.runAll,
      RedisClient.run, RedisClient.healthy, hr, hp, hs, h1, h2]

theorem checkRateLimit_denies (c : RedisClient) (keyID : Nat) (limit : Int)
    (hc : c.healthy) (hge : limit ≤ (c.GetInt (rateLimitKey keyID)).1) :
    checkRateLimit ⟨some c⟩ keyID limit = (false, ⟨some c⟩) := by
  obtain ⟨hr, hp⟩ := hc
  cases hs : c.store (rateLimitKey keyID) with
  | none =>
    simp [RedisClient.GetInt, hr, hs] at hge
    simp [checkRateLimit, RedisClient.GetInt, hr, hs, hge]
  | some e =>
    simp [RedisClient.GetInt, hr, hs] at hge
    simp [checkRateLimit, RedisClient.GetInt, hr, hs, hge]

theorem successiveCalls_remaining (keyID : Nat) (limit : Int) (hmax : limit ≤ maxInt64) :
    ∀ (n : Nat) (c : RedisClient) (k : Nat), c.healthy →
      (c.GetInt (rateLimitKey keyID)).1 + (k : Int) = limit →
      successiveCalls keyID limit n ⟨some c⟩ =
        List.replicate (min n k) true ++ List.replicate (n - k) false := by
  intro n
  induction n with
  | zero => intro c k _ _; simp [successiveCalls]
  | succ n ih =>
    intro c k hc hk
    cases k with
    | zero =>
      have hge : limit ≤ (c.GetInt (rateLimitKey keyID)).1 := by
        rw [← hk]; simp
      have hd := checkRateLimit_denies c keyID limit hc hge
      have := ih c 0 hc hk
      simp only [successiveCalls, hd, this]
      simp [List.replicate_succ]
    | succ k =>
      have hlt : (c.GetInt (rateLimitKey keyID)).1 < limit := by
        rw [← hk]; push_cast; omega
      obtain ⟨c', hstep, hc', hcount⟩ := checkRateLimit_admits c keyID limit hc hlt hmax
      have hk' : (c'.GetInt (rateLimitKey keyID)).1 + (k : Int) = limit := by
        rw [hcount, ← hk]; push_cast; omega
      have := ih c' k hc' hk'
      simp only [successiveCalls, hstep, this]
      simp [List.replicate_succ, Nat.succ_min_succ]

/-- C1: against a healthy store in which the key's counter is absent, `n`
successive calls of `checkRateLimit` for one key and a limit `0 ≤ limit`
answer `true` for exactly the first `limit` calls and `false` for every
later one. -/
theorem checkRateLimit_allows_exactly_limit (c : RedisClient) (keyID : Nat) (limit : Int)
    (n : Nat) (hc : c.healthy) (habsent : c.store (rateLimitKey keyID) = none)
    (h0 : 0 ≤ limit) (hmax : limit ≤ maxInt64) :
    successiveCalls keyID limit n ⟨some c⟩ =
      List.replicate (min n limit.toNat) true ++ List.replicate (n - limit.toNat) false := by
  apply successiveCalls_remaining keyID limit hmax n c limit.toNat hc
  have hr : c.readDown = false := hc.1
  simp [RedisClient.GetInt, hr, habsent, Int.toNat_of_nonneg h0]

theorem checkRateLimit_allows_exactly_limit_witness :
    emptyRedis.healthy ∧ emptyRedis.store (rateLimitKey 7) = none ∧
      (0 : Int) ≤ 2 ∧ (2 : Int) ≤ maxInt64 ∧
      successiveCalls 7 2 4 ⟨some emptyRedis⟩ = [true, true, false, false] :=
  ⟨⟨rfl, rfl⟩, rfl, by decide, by decide,
    checkRateLimit_allows_exactly_limit emptyRedis 7 2 4 ⟨rfl, rfl⟩ rfl (by decide) (by decide)⟩

/-- C2 (failing input): with a configured client whose read succeeds and whose
increment/expire pipeline fails in transport, `checkRateLimit` answers
`false` for every key, whereas a nil client and a failing read both answer
`true`. -/
theorem checkRateLimit_pipeline_failure_denies :
    (∀ keyID : Nat, (checkRateLimit ⟨some pipeDownRedis⟩ keyID 1000).1 = false) ∧
      (∀ (keyID : Nat) (limit : Int), (checkRateLimit ⟨none⟩ keyID limit).1 = true) ∧
      (∀ (c : RedisClient) (keyID : Nat) (limit : Int), c.readDown = true →
        (checkRateLimit ⟨some c⟩ keyID limit).1 = true) := by
  refine ⟨?_, ?_, ?_⟩
  · intro keyID
    simp [checkRateLimit, pipeDownRedis, RedisClient.GetInt, RedisClient.Exec]
  · intro keyID limit
    simp [checkRateLimit]
  · intro c keyID limit h
    simp [checkRateLimit, RedisClient.GetInt, h]

/-! ## Properties of the webhook pipeline -/

theorem parse_sampleDoc (kind : String) :
    ParseWebhookEvent sampleCodec (some (sampleDoc kind)) = Except.ok (sampleEvent kind) := by
  rfl

theorem applyUpdates_eventUpdates (r : EmailLog) (e : String) (now stamp : Time) :
    r.applyUpdates (eventUpdates e now) stamp =
      if e = EventMessageDelivered then
        { r with Status := EmailStatusDelivered, DeliveredAt := some now, UpdatedAt := stamp }
      else if e = EventMessageBounced then
        { r with Status := EmailStatusBounced, BouncedAt := some now, UpdatedAt := stamp }
      else if e = EventMessageFailed then
        { r with Status := EmailStatusFailed, UpdatedAt := stamp }
      else if e = EventMessageOpened then
        { r with OpenedAt := some now, UpdatedAt := stamp }
      else if e = EventMessageClicked then
        { r with ClickedAt := some now, UpdatedAt := stamp }
      else { r with UpdatedAt := stamp } := by
  unfold eventUpdates
  split_ifs <;> simp [EmailLog.applyUpdates, EmailLog.assign]

theorem lowestID_mem : ∀ (rows : List EmailLog) (m : EmailLog),
    lowestID rows = some m → m ∈ rows := by
  intro rows
  induction rows with
  | nil => intro m h; simp [lowestID] at h
  | cons r rest ih =>
    intro m h
    simp only [lowestID] at h
    cases hrest : lowestID rest with
    | none =>
      rw [hrest] at h
      simp at h
      simp [h]
    | some r' =>
      rw [hrest] at h
      by_cases hle : r.ID ≤ r'.ID
      · simp [hle] at h
        simp [h]
      · simp [hle] at h
        subst h
        exact List.mem_cons_of_mem _ (ih _ hrest)

theorem firstByPostalMessageID_spec (db : DB) (id : String) (m : EmailLog)
    (h : db.firstByPostalMessageID id = some m) :
    m ∈ db.emailLogs ∧ m.PostalMessageID = id ∧ m.DeletedAt = none := by
  have hm := lowestID_mem _ _ h
  simp [List.mem_filter] at hm
  exact hm

theorem firstByPostalMessageID_none (db : DB) (id : String)
    (h : ∀ r ∈ db.emailLogs, r.DeletedAt = none → r.PostalMessageID ≠ id) :
    db.firstByPostalMessageID id = none := by
  have hf : db.emailLogs.filter (fun r => r.PostalMessageID == id && r.DeletedAt.isNone) = [] := by
    rw [List.filter_eq_nil_iff]
    intro r hr
    by_cases hd : r.DeletedAt = none
    · simp [hd, h r hr hd]
    · cases hdel : r.DeletedAt with
      | none => exact absurd hdel hd
      | some t => simp
  simp [DB.firstByPostalMessageID, hf, lowestID]

theorem handleEvent_found (db : DB) (now stamp : Time) (ev : WebhookEvent) (m : EmailLog)
    (hid : GetMessageIDFromPayload ev.Payload ≠ "")
    (hfound : db.firstByPostalMessageID (GetMessageIDFromPayload ev.Payload) = some m) :
    handleEvent db now stamp ev =
      (⟨200, "message", "Webhook processed"⟩,
        if (eventUpdates ev.Event now).length > 0 then
          db.Updates m (eventUpdates ev.Event now) stamp
        else db) := by
  simp [handleEvent, hid, hfound]

theorem handleEvent_db (db : DB) (now stamp : Time) (ev : WebhookEvent) :
    (handleEvent db now stamp ev).2 = db ∨
      ∃ m, db.firstByPostalMessageID (GetMessageIDFromPayload ev.Payload) = some m ∧
        (handleEvent db now stamp ev).2 = db.Updates m (eventUpdates ev.Event now) stamp := by
  by_cases hid : GetMessageIDFromPayload ev.Payload = ""
  · left; simp [handleEvent, hid]
  · cases hfound : db.firstByPostalMessageID (GetMessageIDFromPayload ev.Payload) with
    | none => left; simp [handleEvent, hid, hfound]
    | some m =>
      rw [handleEvent_found db now stamp ev m hid hfound]
      by_cases hlen : (eventUpdates ev.Event now).length > 0
      · right; exact ⟨m, rfl, by simp [hlen]⟩
      · left; simp [hlen]

theorem handleEvent_code (db : DB) (now stamp : Time) (ev : WebhookEvent) :
    (handleEvent db now stamp ev).1.code = 200 := by
  by_cases hid : GetMessageIDFromPayload ev.Payload = ""
  · simp [handleEvent, hid]
  · cases hfound : db.firstByPostalMessageID (GetMessageIDFromPayload ev.Payload) <;>
      simp [handleEvent, hid, hfound]

/-- C3 (counterexample): a message whose status is `bounced` receives a
`MessageDelivered` event and its status becomes `delivered`; the handler does
not keep a final status. -/
theorem status_lifecycle_counterexample :
    bouncedLog.Status = EmailStatusBounced ∧
      (HandlePostalWebhook sampleCodec ⟨[bouncedLog], []⟩ 50 51
        (some (some (sampleDoc EventMessageDelivered)))).2.emailLogs.map EmailLog.Status =
        [EmailStatusDelivered] := by
  decide

/-- C3 (amended): for every stored message and every provider event that
`HandlePostalWebhook` applies, the message keeps its primary key and its
status either stays as it was or becomes the one the event kind names
(`delivered` for `MessageDelivered`, `bounced` for `MessageBounced`, `failed`
for `MessageFailed`), whatever the status was before. -/
theorem status_after_event (codec : Codec) (db : DB) (now stamp : Time) (data : Option JSON)
    (ev : WebhookEvent) (hparse : ParseWebhookEvent codec data = Except.ok ev) :
    List.Forall₂
      (fun r r' => r'.ID = r.ID ∧
        (r'.Status = r.Status ∨
          (ev.Event = EventMessageDelivered ∧ r'.Status = EmailStatusDelivered) ∨
          (ev.Event = EventMessageBounced ∧ r'.Status = EmailStatusBounced) ∨
          (ev.Event = EventMessageFailed ∧ r'.Status = EmailStatusFailed)))
      db.emailLogs (HandlePostalWebhook codec db now stamp (some data)).2.emailLogs := by
  have hsame : ∀ rows : List EmailLog, List.Forall₂
      (fun r r' => r'.ID = r.ID ∧
        (r'.Status = r.Status ∨
          (ev.Event = EventMessageDelivered ∧ r'.Status = EmailStatusDelivered) ∨
          (ev.Event = EventMessageBounced ∧ r'.Status = EmailStatusBounced) ∨
          (ev.Event = EventMessageFailed ∧ r'.Status = EmailStatusFailed))) rows rows :=
    fun rows => List.forall₂_same.mpr (fun r _ => ⟨rfl, Or.inl rfl⟩)
  simp only [HandlePostalWebhook, hparse]
  rcases handleEvent_db db now stamp ev with h | ⟨m, _, h⟩
  · rw [h]; exact hsame _
  · rw [h]
    unfold DB.Updates
    by_cases h0 : m.ID = 0
    · simp only [h0, if_true]; exact hsame _
    · simp only [h0, if_false]
      rw [List.forall₂_map_right_iff]
      apply List.forall₂_same.mpr
      intro r _
      by_cases hc : r.ID = m.ID ∧ r.DeletedAt = none
      · rw [if_pos hc, applyUpdates_eventUpdates]
        split_ifs <;> simp_all
      · rw [if_neg hc]; exact ⟨rfl, Or.inl rfl⟩

theorem status_after_event_witness :
    ParseWebhookEvent sampleCodec (some (sampleDoc EventMessageDelivered)) =
        Except.ok (sampleEvent EventMessageDelivered) ∧
      List.Forall₂
        (fun r r' => r'.ID = r.ID ∧
          (r'.Status = r.Status ∨
            ((sampleEvent EventMessageDelivered).Event = EventMessageDelivered ∧
              r'.Status = EmailStatusDelivered) ∨
            ((sampleEvent EventMessageDelivered).Event = EventMessageBounced ∧
              r'.Status = EmailStatusBounced) ∨
            ((sampleEvent EventMessageDelivered).Event = EventMessageFailed ∧
              r'.Status = EmailStatusFailed)))
        (DB.mk [bouncedLog] []).emailLogs
        (HandlePostalWebhook sampleCodec ⟨[bouncedLog], []⟩ 50 51
          (some (some (sampleDoc EventMessageDelivered)))).2.emailLogs :=
  ⟨rfl, status_after_event sampleCodec ⟨[bouncedLog], []⟩ 50 51
    (some (sampleDoc EventMessageDelivered)) (sampleEvent EventMessageDelivered) rfl⟩

theorem lowestID_map (f : EmailLog → EmailLog) (hf : ∀ r, (f r).ID = r.ID) :
    ∀ rows : List EmailLog, lowestID (rows.map f) = (lowestID rows).map f := by
  intro rows
  induction rows with
  | nil => simp [lowestID]
  | cons r rest ih =>
    simp only [List.map_cons, lowestID, ih]
    cases lowestID rest with
    | none => simp
    | some r' =>
      simp only [Option.map_some', hf]
      by_cases hle : r.ID ≤ r'.ID <;> simp [hle]

theorem firstByPostalMessageID_map (db : DB) (f : EmailLog → EmailLog)
    (hID : ∀ r, (f r).ID = r.ID)
    (hPM : ∀ r, (f r).PostalMessageID = r.PostalMessageID)
    (hDel : ∀ r, (f r).DeletedAt = r.DeletedAt) (id : String) :
    DB.firstByPostalMessageID ⟨db.emailLogs.map f, db.webhooks⟩ id =
      (db.firstByPostalMessageID id).map f := by
  unfold DB.firstByPostalMessageID
  have hp : ((fun r : EmailLog => r.PostalMessageID == id && r.DeletedAt.isNone) ∘ f) =
      (fun r : EmailLog => r.PostalMessageID == id && r.DeletedAt.isNone) := by
    funext r
    simp [Function.comp, hPM, hDel]
  rw [← lowestID_map f hID, List.filter_map, hp]

/-- The row-level effect of the update that an event triggers on the message
`m` it resolves to. -/
theorem updateRow_frame (m : EmailLog) (e : String) (now stamp : Time) (r : EmailLog) :
    (if r.ID = m.ID ∧ r.DeletedAt = none then r.applyUpdates (eventUpdates e now) stamp
      else r).ID = r.ID ∧
    (if r.ID = m.ID ∧ r.DeletedAt = none then r.applyUpdates (eventUpdates e now) stamp
      else r).PostalMessageID = r.PostalMessageID ∧
    (if r.ID = m.ID ∧ r.DeletedAt = none then r.applyUpdates (eventUpdates e now) stamp
      else r).DeletedAt = r.DeletedAt := by
  by_cases hc : r.ID = m.ID ∧ r.DeletedAt = none
  · rw [if_pos hc, applyUpdates_eventUpdates]
    split_ifs <;> exact ⟨rfl, rfl, rfl⟩
  · rw [if_neg hc]; exact ⟨rfl, rfl, rfl⟩

theorem firstByPostalMessageID_Updates (db : DB) (m : EmailLog) (e : String)
    (now stamp : Time) (id : String) (hpk : m.ID ≠ 0)
    (hfound : db.firstByPostalMessageID id = some m) :
    (db.Updates m (eventUpdates e now) stamp).firstByPostalMessageID id =
      some (m.applyUpdates (eventUpdates e now) stamp) := by
  have hdel := (firstByPostalMessageID_spec db id m hfound).2.2
  unfold DB.Updates
  rw [if_neg hpk]
  rw [firstByPostalMessageID_map db _
    (fun r => (updateRow_frame m e now stamp r).1)
    (fun r => (updateRow_frame m e now stamp r).2.1)
    (fun r => (updateRow_frame m e now stamp r).2.2) id, hfound]
  simp [hdel]

theorem handle_found (codec : Codec) (db : DB) (now stamp : Time) (data : Option JSON)
    (ev : WebhookEvent) (m : EmailLog) (e : String)
    (hparse : ParseWebhookEvent codec data = Except.ok ev) (hev : ev.Event = e)
    (hid : GetMessageIDFromPayload ev.Payload ≠ "")
    (hfound : db.firstByPostalMessageID (GetMessageIDFromPayload ev.Payload) = some m)
    (hlen : (eventUpdates e now).length > 0) :
    HandlePostalWebhook codec db now stamp (some data) =
      (⟨200, "message", "Webhook processed"⟩, db.Updates m (eventUpdates e now) stamp) := by
  simp only [HandlePostalWebhook, hparse]
  rw [handleEvent_found db now stamp ev m hid hfound, hev, if_pos hlen]

/-- C4: for every message that a `MessageDelivered` event resolves to, the
handler leaves it with status `delivered` and `deliveredAt` set to the
handling time; handling the same event a second time resolves to the same
message and leaves its status `delivered` (the timestamp is set again). -/
theorem delivered_then_delivered (codec : Codec) (db : DB) (now stamp now2 stamp2 : Time)
    (data : Option JSON) (ev : WebhookEvent) (m : EmailLog)
    (hparse : ParseWebhookEvent codec data = Except.ok ev)
    (hev : ev.Event = EventMessageDelivered)
    (hid : GetMessageIDFromPayload ev.Payload ≠ "")
    (hfound : db.firstByPostalMessageID (GetMessageIDFromPayload ev.Payload) = some m)
    (hpk : m.ID ≠ 0) :
    (HandlePostalWebhook codec db now stamp (some data)).2.firstByPostalMessageID
        (GetMessageIDFromPayload ev.Payload) =
      some { m with Status := EmailStatusDelivered, DeliveredAt := some now,
                    UpdatedAt := stamp } ∧
    (HandlePostalWebhook codec (HandlePostalWebhook codec db now stamp (some data)).2
        now2 stamp2 (some data)).2.firstByPostalMessageID
        (GetMessageIDFromPayload ev.Payload) =
      some { m with Status := EmailStatusDelivered, DeliveredAt := some now2,
                    UpdatedAt := stamp2 } := by
  have hlen : ∀ t, (eventUpdates EventMessageDelivered t).length > 0 := by
    intro t; simp [eventUpdates]
  have h1 := handle_found codec db now stamp data ev m _ hparse hev hid hfound (hlen now)
  have hf1 := firstByPostalMessageID_Updates db m EventMessageDelivered now stamp _ hpk hfound
  rw [applyUpdates_eventUpdates, if_pos rfl] at hf1
  rw [h1]
  refine ⟨hf1, ?_⟩
  have h2 := handle_found codec _ now2 stamp2 data ev _ _ hparse hev hid hf1 (hlen now2)
  rw [h2]
  have hf2 := firstByPostalMessageID_Updates _ _ EventMessageDelivered now2 stamp2 _
    (show ({ m with Status := EmailStatusDelivered, DeliveredAt := some now,
                    UpdatedAt := stamp } : EmailLog).ID ≠ 0 from hpk) hf1
  rw [applyUpdates_eventUpdates, if_pos rfl] at hf2
  exact hf2

theorem delivered_then_delivered_witness :
    ParseWebhookEvent sampleCodec (some (sampleDoc EventMessageDelivered)) =
        Except.ok (sampleEvent EventMessageDelivered) ∧
      (DB.mk [sampleLog] []).firstByPostalMessageID "pm-1" = some sampleLog ∧
      sampleLog.ID ≠ 0 ∧
      (HandlePostalWebhook sampleCodec
          (HandlePostalWebhook sampleCodec ⟨[sampleLog], []⟩ 50 51
            (some (some (sampleDoc EventMessageDelivered)))).2
          60 61 (some (some (sampleDoc EventMessageDelivered)))).2.firstByPostalMessageID
          "pm-1" =
        some { sampleLog with Status := EmailStatusDelivered, DeliveredAt := some 60,
                              UpdatedAt := 61 } :=
  ⟨rfl, by decide, by decide,
    (delivered_then_delivered sampleCodec ⟨[sampleLog], []⟩ 50 51 60 61
      (some (sampleDoc EventMessageDelivered)) (sampleEvent EventMessageDelivered) sampleLog
      rfl rfl (by decide) (by decide) (by decide)).2⟩

/-- C5: for every message that the event resolves to, whatever its status,
a `MessageOpened` event rewrites its row with `OpenedAt` set to the handling
time and a `MessageLinkClicked` event with `ClickedAt` set to it; status,
the other timestamps, sender, recipient, subject, owner and identifiers are
as before, in this row and in every other row.  (Like any update through the
ORM, the write also refreshes the row's bookkeeping column `updated_at`.) -/
theorem opened_clicked_frame (codec : Codec) (db : DB) (now stamp : Time)
    (data : Option JSON) (ev : WebhookEvent) (m : EmailLog)
    (hparse : ParseWebhookEvent codec data = Except.ok ev)
    (hid : GetMessageIDFromPayload ev.Payload ≠ "")
    (hfound : db.firstByPostalMessageID (GetMessageIDFromPayload ev.Payload) = some m)
    (hpk : m.ID ≠ 0) :
    (ev.Event = EventMessageOpened →
      (HandlePostalWebhook codec db now stamp (some data)).2 =
        { db with emailLogs := db.emailLogs.map (fun r =>
            if r.ID = m.ID ∧ r.DeletedAt = none then
              { r with OpenedAt := some now, UpdatedAt := stamp }
            else r) }) ∧
    (ev.Event = EventMessageClicked →
      (HandlePostalWebhook codec db now stamp (some data)).2 =
        { db with emailLogs := db.emailLogs.map (fun r =>
            if r.ID = m.ID ∧ r.DeletedAt = none then
              { r with ClickedAt := some now, UpdatedAt := stamp }
            else r) }) := by
  constructor
  · intro hev
    have hlen : (eventUpdates EventMessageOpened now).length > 0 := by
      simp [eventUpdates, EventMessageOpened, EventMessageDelivered, EventMessageBounced,
        EventMessageFailed]
    rw [handle_found codec db now stamp data ev m _ hparse hev hid hfound hlen]
    simp only [DB.Updates, if_neg hpk, applyUpdates_eventUpdates]
    simp [EventMessageOpened, EventMessageDelivered, EventMessageBounced, EventMessageFailed]
  · intro hev
    have hlen : (eventUpdates EventMessageClicked now).length > 0 := by
      simp [eventUpdates, EventMessageClicked, EventMessageOpened, EventMessageDelivered,
        EventMessageBounced, EventMessageFailed]
    rw [handle_found codec db now stamp data ev m _ hparse hev hid hfound hlen]
    simp only [DB.Updates, if_neg hpk, applyUpdates_eventUpdates]
    simp [EventMessageClicked, EventMessageOpened, EventMessageDelivered, EventMessageBounced,
      EventMessageFailed]

theorem opened_clicked_frame_witness :
    ParseWebhookEvent sampleCodec (some (sampleDoc EventMessageOpened)) =
        Except.ok (sampleEvent EventMessageOpened) ∧
      (DB.mk [sampleLog] []).firstByPostalMessageID "pm-1" = some sampleLog ∧
      sampleLog.ID ≠ 0 ∧
      (HandlePostalWebhook sampleCodec ⟨[sampleLog], []⟩ 50 51
          (some (some (sampleDoc EventMessageOpened)))).2 =
        ⟨[{ sampleLog with OpenedAt := some 50, UpdatedAt := 51 }], []⟩ :=
  ⟨rfl, by decide, by decide,
    (opened_clicked_frame sampleCodec ⟨[sampleLog], []⟩ 50 51
      (some (sampleDoc EventMessageOpened)) (sampleEvent EventMessageOpened) sampleLog
      rfl (by decide) (by decide) (by decide)).1 rfl⟩

/-- C6: the updates computed for the three status-changing kinds are exactly
the rows of the transition table: `MessageDelivered` gives status `delivered`
and `delivered_at = now`, `MessageBounced` gives status `bounced` and
`bounced_at = now`, `MessageFailed` gives status `failed` alone, and written
to a row it leaves all four event timestamps as they were. -/
theorem eventUpdates_transition_table (now stamp : Time) (r : EmailLog) :
    eventUpdates "MessageDelivered" now =
        [("status", ColumnValue.status "delivered"), ("delivered_at", ColumnValue.time now)] ∧
      eventUpdates "MessageBounced" now =
        [("status", ColumnValue.status "bounced"), ("bounced_at", ColumnValue.time now)] ∧
      eventUpdates "MessageFailed" now = [("status", ColumnValue.status "failed")] ∧
      r.applyUpdates (eventUpdates "MessageDelivered" now) stamp =
        { r with Status := "delivered", DeliveredAt := some now, UpdatedAt := stamp } ∧
      r.applyUpdates (eventUpdates "MessageBounced" now) stamp =
        { r with Status := "bounced", BouncedAt := some now, UpdatedAt := stamp } ∧
      r.applyUpdates (eventUpdates "MessageFailed" now) stamp =
        { r with Status := "failed", UpdatedAt := stamp } := by
  refine ⟨rfl, rfl, rfl, rfl, rfl, rfl⟩

/-- C7: an event whose kind is not exactly one of `MessageDelivered`,
`MessageBounced`, `MessageFailed`, `MessageOpened`, `MessageLinkClicked`
yields an empty update map; the handler writes nothing, so the database is
left as it was, and the answer is 200. -/
theorem unknown_event_is_noop (codec : Codec) (db : DB) (now stamp : Time)
    (data : Option JSON) (ev : WebhookEvent)
    (hparse : ParseWebhookEvent codec data = Except.ok ev)
    (hkind : ev.Event ∉ ["MessageDelivered", "MessageBounced", "MessageFailed",
      "MessageOpened", "MessageLinkClicked"]) :
    eventUpdates ev.Event now = [] ∧
      (HandlePostalWebhook codec db now stamp (some data)).2 = db ∧
      (HandlePostalWebhook codec db now stamp (some data)).1.code = 200 := by
  simp only [List.mem_cons, List.mem_singleton, List.not_mem_nil, or_false, not_or] at hkind
  obtain ⟨h1, h2, h3, h4, h5⟩ := hkind
  have hupd : eventUpdates ev.Event now = [] := by
    simp [eventUpdates, EventMessageDelivered, EventMessageBounced, EventMessageFailed,
      EventMessageOpened, EventMessageClicked, h1, h2, h3, h4, h5]
  refine ⟨hupd, ?_, ?_⟩
  · simp only [HandlePostalWebhook, hparse]
    rcases handleEvent_db db now stamp ev with h | ⟨m, hm, _⟩
    · exact h
    · by_cases hid : GetMessageIDFromPayload ev.Payload = ""
      · simp [handleEvent, hid]
      · rw [handleEvent_found db now stamp ev m hid hm, hupd]
        simp
  · simp only [HandlePostalWebhook, hparse]
    exact handleEvent_code db now stamp ev

theorem unknown_event_is_noop_witness :
    ParseWebhookEvent sampleCodec (some (sampleDoc "MessageSent")) =
        Except.ok (sampleEvent "MessageSent") ∧
      (sampleEvent "MessageSent").Event ∉ ["MessageDelivered", "MessageBounced",
        "MessageFailed", "MessageOpened", "MessageLinkClicked"] ∧
      eventUpdates (sampleEvent "MessageSent").Event 50 = [] ∧
      (HandlePostalWebhook sampleCodec ⟨[sampleLog], []⟩ 50 51
        (some (some (sampleDoc "MessageSent")))).2 = ⟨[sampleLog], []⟩ ∧
      (HandlePostalWebhook sampleCodec ⟨[sampleLog], []⟩ 50 51
        (some (some (sampleDoc "MessageSent")))).1.code = 200 :=
  ⟨rfl, by decide,
    unknown_event_is_noop sampleCodec ⟨[sampleLog], []⟩ 50 51 (some (sampleDoc "MessageSent"))
      (sampleEvent "MessageSent") rfl (by decide)⟩

/-- C8: `GetMessageIDFromPayload` answers the top-level `message_id` when it
is a string, whatever `message` holds; otherwise the `id` of `message` when
`message` is a map whose `id` is a string; otherwise the empty string. -/
theorem GetMessageIDFromPayload_lookup_order (payload : GoMap) :
    (∀ s, payload.get "message_id" = some (Any.string s) →
      GetMessageIDFromPayload payload = s) ∧
    ((∀ s, payload.get "message_id" ≠ some (Any.string s)) →
      ∀ msg s, payload.get "message" = some (Any.map msg) →
        GoMap.get msg "id" = some (Any.string s) → GetMessageIDFromPayload payload = s) ∧
    ((∀ s, payload.get "message_id" ≠ some (Any.string s)) →
      (∀ msg s, payload.get "message" = some (Any.map msg) →
        GoMap.get msg "id" ≠ some (Any.string s)) →
      GetMessageIDFromPayload payload = "") := by
  refine ⟨?_, ?_, ?_⟩
  · intro s h
    simp [GetMessageIDFromPayload, h]
  · intro hno msg s hmsg hidv
    unfold GetMessageIDFromPayload
    split
    · next t ht => exact absurd ht (hno t)
    · simp [hmsg, hidv]
  · intro hno hnested
    unfold GetMessageIDFromPayload
    split
    · next t ht => exact absurd ht (hno t)
    · split
      · next msg hmsg =>
        split
        · next t ht => exact absurd ht (hnested msg t hmsg)
        · rfl
      · rfl

theorem GetMessageIDFromPayload_lookup_order_witness :
    GetMessageIDFromPayload [("message_id", Any.string "abc")] = "abc" ∧
      GetMessageIDFromPayload
        [("message", Any.map [("id", Any.string "xyz")]), ("message_id", Any.string "abc")] =
        "abc" ∧
      GetMessageIDFromPayload [("message", Any.map [("id", Any.string "xyz")])] = "xyz" ∧
      GetMessageIDFromPayload [("status", Any.string "Sent")] = "" :=
  ⟨(GetMessageIDFromPayload_lookup_order [("message_id", Any.string "abc")]).1 "abc" rfl,
    (GetMessageIDFromPayload_lookup_order
      [("message", Any.map [("id", Any.string "xyz")]), ("message_id", Any.string "abc")]).1
      "abc" rfl,
    (GetMessageIDFromPayload_lookup_order
      [("message", Any.map [("id", Any.string "xyz")])]).2.1
      (fun s h => by simp [GoMap.get, List.lookup] at h)
      [("id", Any.string "xyz")] "xyz" rfl rfl,
    (GetMessageIDFromPayload_lookup_order [("status", Any.string "Sent")]).2.2
      (fun s h => by simp [GoMap.get, List.lookup] at h)
      (fun msg s h => by simp [GoMap.get, List.lookup] at h)⟩

mutual
theorem valueInterface_isOk (codec : Codec) :
    ∀ x : JSON, (valueInterface codec x).isOk = numbersFit codec x
  | JSON.null => rfl
  | JSON.bool _ => rfl
  | JSON.number lit => by
    cases h : codec.parseFloat lit <;>
      simp [valueInterface, numbersFit, h, Except.isOk, Except.toBool]
  | JSON.string _ => rfl
  | JSON.array items => by
    have ih := arrayInterface_isOk codec items
    cases h : arrayInterface codec items <;>
      simp only [h, Except.isOk, Except.toBool] at ih <;>
      simp [valueInterface, numbersFit, h, Except.isOk, Except.toBool, ← ih]
  | JSON.object members => by
    have ih := objectInterface_isOk codec members []
    cases h : objectInterface codec members [] <;>
      simp only [h, Except.isOk, Except.toBool] at ih <;>
      simp [valueInterface, numbersFit, h, Except.isOk, Except.toBool, ← ih]
theorem arrayInterface_isOk (codec : Codec) :
    ∀ xs : List JSON, (arrayInterface codec xs).isOk = itemsFit codec xs
  | [] => rfl
  | x :: xs => by
    have ih1 := valueInterface_isOk codec x
    have ih2 := arrayInterface_isOk codec xs
    cases h1 : valueInterface codec x <;> cases h2 : arrayInterface codec xs <;>
      simp only [h1, h2, Except.isOk, Except.toBool] at ih1 ih2 <;>
      simp [arrayInterface, itemsFit, h1, h2, Except.isOk, Except.toBool, ← ih1, ← ih2]
theorem objectInterface_isOk (codec : Codec) :
    ∀ (ms : List (String × JSON)) (m : GoMap),
      (objectInterface codec ms m).isOk = membersFit codec ms
  | [], _ => rfl
  | (k, x) :: rest, m => by
    have ih1 := valueInterface_isOk codec x
    cases h1 : valueInterface codec x with
    | error e =>
      simp only [h1, Except.isOk, Except.toBool] at ih1
      simp [objectInterface, membersFit, h1, Except.isOk, Except.toBool, ← ih1]
    | ok v =>
      simp only [h1, Except.isOk, Except.toBool] at ih1
      have ih2 := objectInterface_isOk codec rest (GoMap.set m k v)
      simp [objectInterface, membersFit, h1, ← ih1, ih2]
end

theorem decodeField_isOk (codec : Codec) (ev : WebhookEvent) (field : String) (v : JSON) :
    (decodeField codec ev field v).isOk = memberFits codec field v := by
  unfold decodeField memberFits
  by_cases h1 : field = "event"
  · cases v <;> simp [h1, Except.isOk, Except.toBool]
  · by_cases h2 : field = "timestamp"
    · cases v with
      | string s =>
        cases hs : codec.parseRFC3339 s <;> simp [h2, hs, Except.isOk, Except.toBool]
      | _ => simp [h2, Except.isOk, Except.toBool]
    · by_cases h3 : field = "uuid"
      · cases v <;> simp [h3, Except.isOk, Except.toBool]
      · cases v with
        | object members =>
          have ih := objectInterface_isOk codec members ev.Payload
          cases ho : objectInterface codec members ev.Payload <;>
            simp only [ho, Except.isOk, Except.toBool] at ih <;>
            simp [h1, h2, h3, ho, Except.isOk, Except.toBool, ← ih]
        | _ => simp [h1, h2, h3, Except.isOk, Except.toBool]

theorem decodeMembers_isOk (codec : Codec) :
    ∀ (ms : List (String × JSON)) (ev : WebhookEvent),
      (decodeMembers codec ms ev).isOk =
        ms.all (fun kv =>
          match findField kv.1 with
          | none => true
          | some field => memberFits codec field kv.2) := by
  intro ms
  induction ms with
  | nil => intro ev; rfl
  | cons kv rest ih =>
    intro ev
    obtain ⟨k, v⟩ := kv
    cases hf : findField k with
    | none => simp [decodeMembers, hf, ih]
    | some field =>
      have hd := decodeField_isOk codec ev field v
      cases hdec : decodeField codec ev field v with
      | error e =>
        simp only [hdec, Except.isOk, Except.toBool] at hd
        simp [decodeMembers, hf, hdec, Except.isOk, Except.toBool, ← hd]
      | ok ev' =>
        simp only [hdec, Except.isOk, Except.toBool] at hd
        simp [decodeMembers, hf, hdec, ih, ← hd]

/-- C9 (counterexample): the well-formed document with `event` set to the
number 5 is rejected by `ParseWebhookEvent`. -/
theorem ParseWebhookEvent_rejects_wellformed :
    (ParseWebhookEvent sampleCodec (some (JSON.object [("event", JSON.number "5")]))).isOk =
      false := by
  decide

/-- C9 (amended): `ParseWebhookEvent` returns an event exactly when the bytes
are well-formed JSON and the document fits `WebhookEvent`: it is `null`, or
an object whose `event` and `uuid` members are strings or `null`, whose
`timestamp` member is an RFC 3339 string or `null`, and whose `payload`
member is `null` or an object with every number inside float64 range.  It
returns an error for every other input, bytes that are not well-formed JSON
among them. -/
theorem ParseWebhookEvent_ok_iff_fits (codec : Codec) (data : Option JSON) :
    (ParseWebhookEvent codec data).isOk =
      match data with
      | none => false
      | some doc => fitsWebhookEvent codec doc := by
  cases data with
  | none => rfl
  | some doc =>
    cases doc with
    | object members =>
      simp only [ParseWebhookEvent, unmarshalWebhookEvent, fitsWebhookEvent]
      exact decodeMembers_isOk codec members WebhookEvent.zero
    | _ => rfl

/-- C10: a parsed event that cannot be resolved, because its payload yields
an empty message identifier or because no stored message that is not
soft-deleted carries that identifier, is answered with 200 and leaves the
database as it was. -/
theorem unresolved_event_accepted (codec : Codec) (db : DB) (now stamp : Time)
    (data : Option JSON) (ev : WebhookEvent)
    (hparse : ParseWebhookEvent codec data = Except.ok ev)
    (hun : GetMessageIDFromPayload ev.Payload = "" ∨
      ∀ r ∈ db.emailLogs, r.DeletedAt = none →
        r.PostalMessageID ≠ GetMessageIDFromPayload ev.Payload) :
    (HandlePostalWebhook codec db now stamp (some data)).1.code = 200 ∧
      (HandlePostalWebhook codec db now stamp (some data)).2 = db := by
  simp only [HandlePostalWebhook, hparse]
  refine ⟨handleEvent_code db now stamp ev, ?_⟩
  by_cases hid : GetMessageIDFromPayload ev.Payload = ""
  · simp [handleEvent, hid]
  · rcases hun with h | h
    · exact absurd h hid
    · simp [handleEvent, hid, firstByPostalMessageID_none db _ h]

theorem unresolved_event_accepted_witness :
    ParseWebhookEvent sampleCodec (some (sampleDoc EventMessageDelivered)) =
        Except.ok (sampleEvent EventMessageDelivered) ∧
      (∀ r ∈ (DB.mk [{ sampleLog with PostalMessageID := "pm-2" }] []).emailLogs,
        r.DeletedAt = none →
          r.PostalMessageID ≠
            GetMessageIDFromPayload (sampleEvent EventMessageDelivered).Payload) ∧
      (HandlePostalWebhook sampleCodec ⟨[{ sampleLog with PostalMessageID := "pm-2" }], []⟩
          50 51 (some (some (sampleDoc EventMessageDelivered)))).1.code = 200 ∧
      (HandlePostalWebhook sampleCodec ⟨[{ sampleLog with PostalMessageID := "pm-2" }], []⟩
          50 51 (some (some (sampleDoc EventMessageDelivered)))).2 =
        ⟨[{ sampleLog with PostalMessageID := "pm-2" }], []⟩ :=
  ⟨rfl, by decide,
    unresolved_event_accepted sampleCodec ⟨[{ sampleLog with PostalMessageID := "pm-2" }], []⟩
      50 51 (some (sampleDoc EventMessageDelivered)) (sampleEvent EventMessageDelivered) rfl
      (Or.inr (by decide))⟩

/-! ## Properties of signatures and API keys -/

/-- C11: the signature that is the HMAC-SHA256 of the payload under the
secret (in the hex text the function compares with) is accepted, and every
signature obtained from it by changing the byte at one position is
rejected. -/
theorem VerifyWebhookSignature_exact (crypto : Crypto) (payload secret : List UInt8)
    (i : Nat) (b : UInt8)
    (hi : i < (expectedSignature crypto payload secret).length)
    (hb : (expectedSignature crypto payload secret).get? i ≠ some b) :
    VerifyWebhookSignature crypto payload (expectedSignature crypto payload secret) secret =
        true ∧
      VerifyWebhookSignature crypto payload
        ((expectedSignature crypto payload secret).set i b) secret = false := by
  constructor
  · simp [VerifyWebhookSignature, expectedSignature]
  · have hne : (expectedSignature crypto payload secret).set i b ≠
        expectedSignature crypto payload secret := by
      intro h
      apply hb
      have hget : ((expectedSignature crypto payload secret).set i b).get? i = some b := by
        simp [hi]
      rw [h] at hget
      exact hget
    unfold expectedSignature at hne
    simp [VerifyWebhookSignature, expectedSignature, hne]

theorem VerifyWebhookSignature_exact_witness :
    0 < (expectedSignature stubCrypto [1, 2] [3]).length ∧
      (expectedSignature stubCrypto [1, 2] [3]).get? 0 ≠ some 0 ∧
      VerifyWebhookSignature stubCrypto [1, 2] (expectedSignature stubCrypto [1, 2] [3]) [3] =
        true ∧
      VerifyWebhookSignature stubCrypto [1, 2]
        ((expectedSignature stubCrypto [1, 2] [3]).set 0 0) [3] = false :=
  ⟨by decide, by decide,
    VerifyWebhookSignature_exact stubCrypto [1, 2] [3] 0 0 (by decide) (by decide)⟩

theorem hexChars_length : ∀ bs : List UInt8, (hexChars bs).length = 2 * bs.length := by
  intro bs
  induction bs with
  | nil => rfl
  | cons b bs ih => simp [hexChars, hexByte, ih]; omega

theorem hexDigit_mem (n : Nat) : hexDigit n ∈ hexDigits := by
  unfold hexDigit
  by_cases h : n < hexDigits.length
  · rw [List.getD_eq_getElem _ _ h]
    exact List.getElem_mem h
  · rw [List.getD_eq_default _ _ (Nat.le_of_not_lt h)]
    decide

theorem hexChars_mem : ∀ (bs : List UInt8) (c : Char), c ∈ hexChars bs → c ∈ hexDigits := by
  intro bs
  induction bs with
  | nil => intro c h; simp [hexChars] at h
  | cons b bs ih =>
    intro c h
    simp only [hexChars, hexByte, List.mem_append, List.mem_cons, List.mem_singleton,
      List.not_mem_nil, or_false] at h
    rcases h with (h | h) | h
    · rw [h]; exact hexDigit_mem _
    · rw [h]; exact hexDigit_mem _
    · exact ih c h

theorem hexDigits_ascii : ∀ c ∈ hexDigits, c.utf8Size = 1 := by
  decide

theorem utf8Len_ascii : ∀ cs : List Char, (∀ c ∈ cs, c.utf8Size = 1) →
    String.utf8Len cs = cs.length := by
  intro cs
  induction cs with
  | nil => intro _; rfl
  | cons c cs ih =>
    intro h
    simp [String.utf8Len_cons, h c (List.mem_cons_self _ _),
      ih (fun d hd => h d (List.mem_cons_of_mem _ hd))]

theorem slicePrefix_ascii (cs : List Char) (n : Nat) (hascii : ∀ c ∈ cs, c.utf8Size = 1)
    (hn : n ≤ cs.length) : slicePrefix (String.mk cs) n = some (String.mk (cs.take n)) := by
  have hlen : String.utf8Len cs = cs.length := utf8Len_ascii cs hascii
  have htake : String.utf8Len (cs.take n) = n := by
    rw [utf8Len_ascii _ (fun c hc => hascii c (List.mem_of_mem_take hc)), List.length_take]
    omega
  have hext := String.extract_of_valid [] (cs.take n) (cs.drop n)
  simp only [List.nil_append, List.take_append_drop, String.utf8Len_nil, Nat.zero_add,
    htake] at hext
  unfold slicePrefix
  rw [String.utf8ByteSize_mk, hlen, if_pos hn]
  exact congrArg some hext

theorem rawKey_chars (bytes : List UInt8) :
    "sk_" ++ hexEncode bytes = String.mk (['s', 'k', '_'] ++ hexChars bytes) := by
  rfl

theorem rawKey_slice (bytes : List UInt8) (h32 : bytes.length = 32) :
    slicePrefix ("sk_" ++ hexEncode bytes) 8 =
      some (String.mk (['s', 'k', '_'] ++ (hexChars bytes).take 5)) := by
  have hlen := hexChars_length bytes
  rw [rawKey_chars, slicePrefix_ascii _ 8]
  · simp [List.take_append_eq_append_take]
  · intro c hc
    simp only [List.mem_append, List.mem_cons, List.mem_singleton, List.not_mem_nil,
      or_false] at hc
    rcases hc with (h | h | h) | h
    · rw [h]; decide
    · rw [h]; decide
    · rw [h]; decide
    · exact hexDigits_ascii c (hexChars_mem bytes c h)
  · simp [hlen, h32]

theorem CreateAPIKey_new_row (crypto : Crypto) (keys : List APIKey) (stamp : Time)
    (userID : Nat) (req : CreateAPIKeyRequest) (bytes : List UInt8) (h32 : bytes.length = 32)
    (row : APIKey)
    (hrow : row ∈ (CreateAPIKey crypto keys stamp userID (Except.ok req) (Except.ok bytes)).2) :
    row ∈ keys ∨
      (row.Name = req.Name ∧ row.Key = hashAPIKey crypto ("sk_" ++ hexEncode bytes) ∧
        row.KeyPrefix = String.mk (['s', 'k', '_'] ++ (hexChars bytes).take 5) ∧
        row.Permissions = "[]") := by
  simp only [CreateAPIKey, generateAPIKey, rawKey_slice bytes h32, createAPIKey] at hrow
  by_cases hdup :
      (keys.any fun k => k.Key == hashAPIKey crypto ("sk_" ++ hexEncode bytes)) = true
  · rw [if_pos hdup] at hrow
    left; exact hrow
  · rw [if_neg hdup] at hrow
    simp only [List.mem_append, List.mem_singleton] at hrow
    rcases hrow with h | h
    · left; exact h
    · right; rw [h]; exact ⟨rfl, rfl, rfl, rfl⟩

/-- C19: for every 32 random bytes `generateAPIKey` returns `sk_` followed by
64 lower-case hex digits, 67 characters in all; the slice `rawKey[:8]` is in
bounds and is `sk_` followed by the first five hex digits, so the key prefix
that `CreateAPIKey` stores has exactly 8 characters. -/
theorem generateAPIKey_shape (bytes : List UInt8) (h32 : bytes.length = 32) :
    generateAPIKey (Except.ok bytes) =
        Except.ok (String.mk (['s', 'k', '_'] ++ hexChars bytes)) ∧
      (hexChars bytes).length = 64 ∧
      (∀ c ∈ hexChars bytes, c ∈ hexDigits) ∧
      (String.mk (['s', 'k', '_'] ++ hexChars bytes)).length = 67 ∧
      slicePrefix (String.mk (['s', 'k', '_'] ++ hexChars bytes)) 8 =
        some (String.mk (['s', 'k', '_'] ++ (hexChars bytes).take 5)) ∧
      (String.mk (['s', 'k', '_'] ++ (hexChars bytes).take 5)).length = 8 ∧
      ∀ (crypto : Crypto) (keys : List APIKey) (stamp : Time) (userID : Nat)
        (req : CreateAPIKeyRequest),
        ∀ row ∈ (CreateAPIKey crypto keys stamp userID (Except.ok req) (Except.ok bytes)).2,
          row ∈ keys ∨ row.KeyPrefix.length = 8 := by
  have hlen : (hexChars bytes).length = 64 := by rw [hexChars_length, h32]
  have hslice := rawKey_slice bytes h32
  rw [rawKey_chars] at hslice
  have h8 : (String.mk (['s', 'k', '_'] ++ (hexChars bytes).take 5)).length = 8 := by
    simp [String.length, List.length_take, hlen]
  refine ⟨rfl, hlen, hexChars_mem bytes, ?_, hslice, h8, ?_⟩
  · simp [String.length, hlen]
  · intro crypto keys stamp userID req row hrow
    rcases CreateAPIKey_new_row crypto keys stamp userID req bytes h32 row hrow with h | h
    · left; exact h
    · right; rw [h.2.2.1]; exact h8

theorem generateAPIKey_shape_witness :
    (List.replicate 32 (7 : UInt8)).length = 32 ∧
      generateAPIKey (Except.ok (List.replicate 32 7)) =
        Except.ok "sk_0707070707070707070707070707070707070707070707070707070707070707" ∧
      slicePrefix "sk_0707070707070707070707070707070707070707070707070707070707070707" 8 =
        some "sk_07070" :=
  ⟨by decide, (generateAPIKey_shape (List.replicate 32 7) (by decide)).1,
    (generateAPIKey_shape (List.replicate 32 7) (by decide)).2.2.2.2.1⟩

/-- C15: the record `CreateAPIKey` writes holds the key material only as the
hex SHA-256 of the raw key, 64 characters against the 67 of the raw key, and
as the 8-character prefix; neither of them, nor the permissions, equals the
raw key, and the name is the one the request carries. -/
theorem raw_key_not_persisted (crypto : Crypto) (keys : List APIKey) (stamp : Time)
    (userID : Nat) (req : CreateAPIKeyRequest) (bytes : List UInt8)
    (h32 : bytes.length = 32) :
    ∀ row ∈ (CreateAPIKey crypto keys stamp userID (Except.ok req) (Except.ok bytes)).2,
      row ∈ keys ∨
        (row.Key = hexEncode (crypto.sha256 (bytesOf ("sk_" ++ hexEncode bytes))) ∧
          row.Key.length = 64 ∧ ("sk_" ++ hexEncode bytes).length = 67 ∧
          row.Key ≠ "sk_" ++ hexEncode bytes ∧
          row.KeyPrefix = String.mk (("sk_" ++ hexEncode bytes).data.take 8) ∧
          row.KeyPrefix.length = 8 ∧
          row.KeyPrefix ≠ "sk_" ++ hexEncode bytes ∧
          row.Permissions = "[]" ∧ row.Permissions ≠ "sk_" ++ hexEncode bytes ∧
          row.Name = req.Name) := by
  intro row hrow
  rcases CreateAPIKey_new_row crypto keys stamp userID req bytes h32 row hrow with h | h
  · left; exact h
  · right
    obtain ⟨hname, hkey, hpre, hperm⟩ := h
    have hlen : (hexChars bytes).length = 64 := by rw [hexChars_length, h32]
    have hraw : ("sk_" ++ hexEncode bytes).length = 67 := by
      rw [rawKey_chars]; simp [String.length, hlen]
    have hklen : row.Key.length = 64 := by
      rw [hkey]
      simp [hashAPIKey, hexEncode, String.length, hexChars_length, crypto.sha256_size]
    have hplen : row.KeyPrefix.length = 8 := by
      rw [hpre]; simp [String.length, List.length_take, hlen]
    refine ⟨hkey, hklen, hraw, ?_, ?_, hplen, ?_, hperm, ?_, hname⟩
    · intro h; rw [h, hraw] at hklen; omega
    · rw [hpre, rawKey_chars]; simp [List.take_append_eq_append_take]
    · intro h; rw [h, hraw] at hplen; omega
    · intro h
      have := congrArg String.length h
      rw [hperm, hraw] at this
      revert this; decide

theorem raw_key_not_persisted_witness :
    (List.replicate 32 (7 : UInt8)).length = 32 ∧
      (CreateAPIKey stubCrypto [] 9 7 (Except.ok ⟨"ci", 100⟩)
          (Except.ok (List.replicate 32 7))).2.map APIKey.Key =
        ["0000000000000000000000000000000000000000000000000000000000000000"] ∧
      ∀ row ∈ (CreateAPIKey stubCrypto [] 9 7 (Except.ok ⟨"ci", 100⟩)
          (Except.ok (List.replicate 32 7))).2,
        row ∈ ([] : List APIKey) ∨
          (row.Key = hexEncode (stubCrypto.sha256
              (bytesOf ("sk_" ++ hexEncode (List.replicate 32 7)))) ∧
            row.Key.length = 64 ∧ ("sk_" ++ hexEncode (List.replicate 32 7)).length = 67 ∧
            row.Key ≠ "sk_" ++ hexEncode (List.replicate 32 7) ∧
            row.KeyPrefix =
              String.mk (("sk_" ++ hexEncode (List.replicate 32 7)).data.take 8) ∧
            row.KeyPrefix.length = 8 ∧
            row.KeyPrefix ≠ "sk_" ++ hexEncode (List.replicate 32 7) ∧
            row.Permissions = "[]" ∧
            row.Permissions ≠ "sk_" ++ hexEncode (List.replicate 32 7) ∧
            row.Name = (CreateAPIKeyRequest.mk "ci" 100).Name) :=
  ⟨by decide, by decide,
    raw_key_not_persisted stubCrypto [] 9 7 ⟨"ci", 100⟩ (List.replicate 32 7) (by decide)⟩

/-! ## Properties of sending and admission -/

/-- C12: a send request whose `html_body` and `plain_body` are both empty is
answered with 400; no request reaches the mail provider and the database is
left as it was. -/
theorem SendEmail_requires_body (transport : Transport) (db : DB) (clock : Nat → Time)
    (userID : Nat) (uuid : String) (bound : Except String SendEmailRequest)
    (hempty : ∀ req, bound = Except.ok req → req.HTMLBody = "" ∧ req.PlainBody = "") :
    (SendEmail transport db clock userID uuid bound).1.code = 400 ∧
      (SendEmail transport db clock userID uuid bound).2.1 = db ∧
      (SendEmail transport db clock userID uuid bound).2.2 = [] := by
  cases bound with
  | error e => simp [SendEmail, SendEmailReply.code]
  | ok req =>
    have h := hempty req rfl
    simp [SendEmail, SendEmailReply.code, h.1, h.2]

theorem SendEmail_requires_body_witness :
    (∀ req, (Except.ok { sampleSend ["b@example.com"] with HTMLBody := "" } :
        Except String SendEmailRequest) = Except.ok req →
        req.HTMLBody = "" ∧ req.PlainBody = "") ∧
      (SendEmail acceptingTransport ⟨[sampleLog], []⟩ (fun _ => 50) 7 "u-1"
        (Except.ok { sampleSend ["b@example.com"] with HTMLBody := "" })).1.code = 400 ∧
      (SendEmail acceptingTransport ⟨[sampleLog], []⟩ (fun _ => 50) 7 "u-1"
        (Except.ok { sampleSend ["b@example.com"] with HTMLBody := "" })).2.1 =
        ⟨[sampleLog], []⟩ ∧
      (SendEmail acceptingTransport ⟨[sampleLog], []⟩ (fun _ => 50) 7 "u-1"
        (Except.ok { sampleSend ["b@example.com"] with HTMLBody := "" })).2.2 = [] :=
  ⟨fun req h => by cases h; exact ⟨rfl, rfl⟩,
    SendEmail_requires_body acceptingTransport ⟨[sampleLog], []⟩ (fun _ => 50) 7 "u-1"
      (Except.ok { sampleSend ["b@example.com"] with HTMLBody := "" })
      (fun req h => by cases h; exact ⟨rfl, rfl⟩)⟩

theorem logRecipients_duplicate (clock : Nat → Time) (userID : Nat)
    (messageID postalMessageID : String) (req : SendEmailRequest) :
    ∀ (recipients : List String) (db : DB) (i : Nat),
      db.emailLogs.any (fun r => r.MessageID == messageID) = true →
      logRecipients db clock userID messageID postalMessageID req i recipients = db := by
  intro recipients
  induction recipients with
  | nil => intro db i _; rfl
  | cons r rest ih =>
    intro db i h
    simp only [logRecipients, DB.CreateEmailLog, h, if_true]
    exact ih db (i + 1) h

theorem logRecipients_fresh (clock : Nat → Time) (userID : Nat)
    (messageID postalMessageID : String) (req : SendEmailRequest) (db : DB) (i : Nat)
    (r : String) (rest : List String)
    (hfresh : db.emailLogs.any (fun x => x.MessageID == messageID) = false) :
    logRecipients db clock userID messageID postalMessageID req i (r :: rest) =
      { db with emailLogs := db.emailLogs ++
          [{ ID := nextID (db.emailLogs.map EmailLog.ID), UserID := userID,
             MessageID := messageID, PostalMessageID := postalMessageID, From := req.From,
             To := r, Subject := req.Subject, Status := EmailStatusSent, ErrorMessage := "",
             OpenedAt := none, ClickedAt := none, BouncedAt := none, DeliveredAt := none,
             CreatedAt := clock i, UpdatedAt := clock i, DeletedAt := none }] } := by
  simp only [logRecipients, DB.CreateEmailLog, hfresh]
  apply logRecipients_duplicate
  simp

theorem SendEmail_accepted (transport : Transport) (db : DB) (clock : Nat → Time)
    (userID : Nat) (uuid : String) (req : SendEmailRequest) (resp : PostalSendEmailResponse)
    (hbody : ¬ (req.HTMLBody = "" ∧ req.PlainBody = ""))
    (hok : ClientSendEmail transport
      ⟨req.To, req.From, req.Subject, req.HTMLBody, req.PlainBody, req.Headers⟩ =
        Except.ok resp) :
    SendEmail transport db clock userID uuid (Except.ok req) =
      (SendEmailReply.sent uuid resp.MessageID "sent",
        logRecipients db clock userID uuid resp.MessageID req 0 req.To,
        [⟨req.To, req.From, req.Subject, req.HTMLBody, req.PlainBody, req.Headers⟩]) := by
  simp only [SendEmail, if_neg hbody, hok]
  by_cases h : resp.MessageID = ""
  · simp [h]
  · simp [h]

/-- C13 (failing input): a request with two or more recipients that the
provider accepts leaves one message record, the one of the first recipient;
the `Create` of every later recipient carries the same `MessageID`, is refused
by the unique index and its error is only printed. -/
theorem SendEmail_fanout_leaves_one_record :
    ∀ (r1 r2 : String) (rest : List String),
      ((SendEmail acceptingTransport ⟨[], []⟩ (fun _ => 50) 7 "u-1"
        (Except.ok (sampleSend (r1 :: r2 :: rest)))).2.1.emailLogs.map EmailLog.To) = [r1] ∧
      (SendEmail acceptingTransport ⟨[], []⟩ (fun _ => 50) 7 "u-1"
        (Except.ok (sampleSend (r1 :: r2 :: rest)))).1.code = 200 := by
  intro r1 r2 rest
  have hbody : ¬ ((sampleSend (r1 :: r2 :: rest)).HTMLBody = "" ∧
      (sampleSend (r1 :: r2 :: rest)).PlainBody = "") := by
    simp [sampleSend]
  rw [SendEmail_accepted acceptingTransport ⟨[], []⟩ (fun _ => 50) 7 "u-1"
    (sampleSend (r1 :: r2 :: rest)) ⟨"success", "pm-9", []⟩ hbody rfl]
  constructor
  · show (logRecipients ⟨[], []⟩ (fun _ => 50) 7 "u-1" "pm-9"
      (sampleSend (r1 :: r2 :: rest)) 0 (r1 :: r2 :: rest)).emailLogs.map EmailLog.To = [r1]
    rw [logRecipients_fresh _ _ _ _ _ _ _ _ _ (by rfl)]
    simp
  · rfl

/-- C14: `Validate` hands the request on exactly when the header is not empty,
its hash is that of a stored key and the rate limiter admits the call; every
other outcome is an abort with 401 (empty header, or no stored key with that
hash), which leaves the key table and the counter store as they were, or with
429 (the limiter denies), which leaves the key table as it was. -/
theorem Validate_outcomes (crypto : Crypto) (m : APIKeyMiddleware) (keys : List APIKey)
    (now stamp : Time) (apiKey : String) :
    ((∃ u k, (Validate crypto m keys now stamp apiKey).1 = Admission.next u k) ↔
      (apiKey ≠ "" ∧ ∃ key, firstByKey keys (hashAPIKey crypto apiKey) = some key ∧
        (checkRateLimit m key.ID key.RateLimit).1 = true)) ∧
    (∀ r, (Validate crypto m keys now stamp apiKey).1 = Admission.abort r →
      (r.code = 401 ∧
        (apiKey = "" ∨ firstByKey keys (hashAPIKey crypto apiKey) = none) ∧
        (Validate crypto m keys now stamp apiKey).2.1 = keys ∧
        (Validate crypto m keys now stamp apiKey).2.2 = m) ∨
      (r.code = 429 ∧
        (∃ key, firstByKey keys (hashAPIKey crypto apiKey) = some key ∧
          (checkRateLimit m key.ID key.RateLimit).1 = false) ∧
        (Validate crypto m keys now stamp apiKey).2.1 = keys)) := by
  by_cases hempty : apiKey = ""
  · simp [Validate, hempty]
  · cases hfind : firstByKey keys (hashAPIKey crypto apiKey) with
    | none => simp [Validate, hempty, hfind]
    | some key =>
      cases hallow : (checkRateLimit m key.ID key.RateLimit).1 with
      | false =>
        constructor
        · simp [Validate, hempty, hfind, hallow]
        · intro r hr
          right
          simp only [Validate, hempty, hfind, hallow, if_false, Bool.not_false, if_true] at hr ⊢
          injection hr with hr
          subst hr
          exact ⟨rfl, ⟨key, rfl, hallow⟩, trivial⟩
      | true =>
        constructor
        · simp [Validate, hempty, hfind, hallow]
        · intro r hr
          simp [Validate, hempty, hfind, hallow] at hr

/-- C18: every call that a healthy store answers `true` to leaves the key's
counter one higher and with a time to live of exactly one hour, whatever its
time to live was before the call. -/
theorem admitted_call_sets_hour_expiry (c : RedisClient) (keyID : Nat) (limit : Int)
    (hc : c.healthy) (hadm : (checkRateLimit ⟨some c⟩ keyID limit).1 = true) :
    ∃ c', (checkRateLimit ⟨some c⟩ keyID limit).2 = ⟨some c'⟩ ∧
      c'.store (rateLimitKey keyID) =
        some ⟨(c.GetInt (rateLimitKey keyID)).1 + 1, some 3600⟩ := by
  obtain ⟨hr, hp⟩ := hc
  cases hs : c.store (rateLimitKey keyID) with
  | none =>
    by_cases hl : limit ≤ 0
    · simp [checkRateLimit, RedisClient.GetInt, hr, hs, hl] at hadm
    · simp [checkRateLimit, RedisClient.GetInt, RedisClient.Exec, RedisClient.runAll,
        RedisClient.run, hr, hp, hs, hl, hourSeconds]
  | some e =>
    by_cases hl : limit ≤ e.value
    · simp [checkRateLimit, RedisClient.GetInt, hr, hs, hl] at hadm
    · by_cases hmax : maxInt64 ≤ e.value
      · simp [checkRateLimit, RedisClient.GetInt, RedisClient.Exec, RedisClient.runAll,
          RedisClient.run, hr, hp, hs, hl, hmax] at hadm
      · simp [checkRateLimit, RedisClient.GetInt, RedisClient.Exec, RedisClient.runAll,
          RedisClient.run, hr, hp, hs, hl, hmax, hourSeconds]

theorem admitted_call_sets_hour_expiry_witness :
    agedRedis.healthy ∧ agedRedis.store (rateLimitKey 3) = some ⟨1, some 5⟩ ∧
      (checkRateLimit ⟨some agedRedis⟩ 3 10).1 = true ∧
      ∃ c', (checkRateLimit ⟨some agedRedis⟩ 3 10).2 = ⟨some c'⟩ ∧
        c'.store (rateLimitKey 3) =
          some ⟨(agedRedis.GetInt (rateLimitKey 3)).1 + 1, some 3600⟩ :=
  ⟨⟨rfl, rfl⟩, by decide, by decide,
    admitted_call_sets_hour_expiry agedRedis 3 10 ⟨rfl, rfl⟩ (by decide)⟩

theorem Validate_outcomes_witness :
    ∃ u k, (Validate stubCrypto ⟨some emptyRedis⟩ [sampleKey] 50 51 "sk_live").1 =
      Admission.next u k :=
  (Validate_outcomes stubCrypto ⟨some emptyRedis⟩ [sampleKey] 50 51 "sk_live").1.mpr
    ⟨by decide, sampleKey, by decide, by decide⟩

theorem lowestID_le : ∀ (rows : List EmailLog) (m : EmailLog),
    lowestID rows = some m → ∀ r ∈ rows, m.ID ≤ r.ID := by
  intro rows
  induction rows with
  | nil => intro m _ r hr; simp at hr
  | cons x rest ih =>
    intro m h r hr
    simp only [lowestID] at h
    cases hrest : lowestID rest with
    | none =>
      rw [hrest] at h
      have hnil : rest = [] := by
        cases rest with
        | nil => rfl
        | cons y ys =>
          simp only [lowestID] at hrest
          cases hys : lowestID ys with
          | none => rw [hys] at hrest; simp at hrest
          | some z => rw [hys] at hrest; by_cases hle : y.ID ≤ z.ID <;> simp [hle] at hrest
      simp at h
      subst hnil
      simp only [List.mem_singleton] at hr
      rw [hr, h]
    | some r' =>
      rw [hrest] at h
      have ih' := ih r' hrest
      by_cases hle : x.ID ≤ r'.ID
      · simp [hle] at h
        subst h
        rcases List.mem_cons.mp hr with h1 | h1
        · rw [h1]
        · exact le_trans hle (ih' r h1)
      · simp [hle] at h
        subst h
        rcases List.mem_cons.mp hr with h1 | h1
        · rw [h1]; omega
        · exact ih' r h1

/-- C17: when several stored messages carry the provider identifier of an
event, the message the handler resolves to is the one with the lowest primary
key among those that are not soft-deleted; every other message, the other
matches included, is left as it was, and the resolved one is either left as
it was or rewritten with the updates of the event. -/
theorem fanout_updates_first_only (codec : Codec) (db : DB) (now stamp : Time)
    (data : Option JSON) (ev : WebhookEvent) (m : EmailLog)
    (hparse : ParseWebhookEvent codec data = Except.ok ev)
    (hfound : db.firstByPostalMessageID (GetMessageIDFromPayload ev.Payload) = some m)
    (hpk : (db.emailLogs.map EmailLog.ID).Nodup) :
    (∀ r ∈ db.emailLogs, r.DeletedAt = none →
      r.PostalMessageID = GetMessageIDFromPayload ev.Payload → m.ID ≤ r.ID) ∧
    List.Forall₂
      (fun r r' => (r ≠ m → r' = r) ∧
        (r = m → r' = m ∨ r' = m.applyUpdates (eventUpdates ev.Event now) stamp))
      db.emailLogs (HandlePostalWebhook codec db now stamp (some data)).2.emailLogs := by
  have hspec := firstByPostalMessageID_spec db _ m hfound
  constructor
  · intro r hr hdel hpm
    apply lowestID_le _ m hfound
    simp [List.mem_filter, hr, hdel, hpm]
  · have hsame : List.Forall₂
        (fun r r' => (r ≠ m → r' = r) ∧
          (r = m → r' = m ∨ r' = m.applyUpdates (eventUpdates ev.Event now) stamp))
        db.emailLogs db.emailLogs :=
      List.forall₂_same.mpr (fun r _ => ⟨fun _ => rfl, fun h => Or.inl h⟩)
    simp only [HandlePostalWebhook, hparse]
    rcases handleEvent_db db now stamp ev with h | ⟨m', hm', h⟩
    · rw [h]; exact hsame
    · rw [hfound] at hm'
      injection hm' with hm'
      subst hm'
      rw [h]
      unfold DB.Updates
      by_cases h0 : m.ID = 0
      · simp only [h0, if_true]; exact hsame
      · simp only [h0, if_false]
        rw [List.forall₂_map_right_iff]
        apply List.forall₂_same.mpr
        intro r hr
        by_cases hcond : r.ID = m.ID ∧ r.DeletedAt = none
        · have hrm : r = m := List.inj_on_of_nodup_map hpk hr hspec.1 hcond.1
          rw [if_pos hcond, hrm]
          exact ⟨fun hne => absurd rfl hne, fun _ => Or.inr rfl⟩
        · rw [if_neg hcond]
          exact ⟨fun _ => rfl, fun h => Or.inl h⟩

theorem fanout_updates_first_only_witness :
    ParseWebhookEvent sampleCodec (some (sampleDoc EventMessageDelivered)) =
        Except.ok (sampleEvent EventMessageDelivered) ∧
      (DB.mk [{ sampleLog with ID := 2, To := "c@example.com" }, sampleLog]
        []).firstByPostalMessageID "pm-1" = some sampleLog ∧
      (HandlePostalWebhook sampleCodec
        ⟨[{ sampleLog with ID := 2, To := "c@example.com" }, sampleLog], []⟩ 50 51
        (some (some (sampleDoc EventMessageDelivered)))).2.emailLogs =
        [{ sampleLog with ID := 2, To := "c@example.com" },
          { sampleLog with Status := EmailStatusDelivered, DeliveredAt := some 50,
                           UpdatedAt := 51 }] ∧
      List.Forall₂
        (fun r r' => (r ≠ sampleLog → r' = r) ∧
          (r = sampleLog → r' = sampleLog ∨
            r' = sampleLog.applyUpdates
              (eventUpdates (sampleEvent EventMessageDelivered).Event 50) 51))
        (DB.mk [{ sampleLog with ID := 2, To := "c@example.com" }, sampleLog] []).emailLogs
        (HandlePostalWebhook sampleCodec
          ⟨[{ sampleLog with ID := 2, To := "c@example.com" }, sampleLog], []⟩ 50 51
          (some (some (sampleDoc EventMessageDelivered)))).2.emailLogs :=
  ⟨rfl, by decide, by decide,
    (fanout_updates_first_only sampleCodec
      ⟨[{ sampleLog with ID := 2, To := "c@example.com" }, sampleLog], []⟩ 50 51
      (some (sampleDoc EventMessageDelivered)) (sampleEvent EventMessageDelivered) sampleLog
      rfl (by decide) (by decide)).2⟩

/-! ## Isolation of the counters -/

theorem digitChar_value (k : Nat) (h : k < 10) : (Nat.digitChar k).toNat - 48 = k := by
  interval_cases k <;> rfl

theorem digitsValue_snoc (pre : List Char) (d : Char) :
    digitsValue (pre ++ [d]) = 10 * digitsValue pre + (d.toNat - 48) := by
  simp [digitsValue, List.foldl_append]

theorem toDigitsCore_value : ∀ (fuel n : Nat) (ds : List Char), n < fuel →
    ∃ pre, Nat.toDigitsCore 10 fuel n ds = pre ++ ds ∧ digitsValue pre = n := by
  intro fuel
  induction fuel with
  | zero => intro n ds h; exact absurd h (Nat.not_lt_zero _)
  | succ fuel ih =>
    intro n ds hn
    by_cases hq : n / 10 = 0
    · refine ⟨[Nat.digitChar (n % 10)], ?_, ?_⟩
      · simp [Nat.toDigitsCore, hq]
      · have hlt : n < 10 := by omega
        simp [digitsValue, Nat.mod_eq_of_lt hlt, digitChar_value n hlt]
    · have hlt : n / 10 < fuel := by omega
      obtain ⟨pre, hpre, hval⟩ := ih (n / 10) (Nat.digitChar (n % 10) :: ds) hlt
      refine ⟨pre ++ [Nat.digitChar (n % 10)], ?_, ?_⟩
      · simp [Nat.toDigitsCore, hq, hpre]
      · rw [digitsValue_snoc, hval, digitChar_value _ (Nat.mod_lt n (by decide))]
        omega

theorem digitsValue_repr (n : Nat) : digitsValue (Nat.repr n).data = n := by
  obtain ⟨pre, hpre, hval⟩ := toDigitsCore_value (n + 1) n [] (Nat.lt_succ_self n)
  simp only [Nat.repr, Nat.toDigits, hpre, List.append_nil, List.asString]
  exact hval

theorem rateLimitKey_injective (a b : Nat) (h : rateLimitKey a = rateLimitKey b) : a = b := by
  have hdata := congrArg String.data h
  simp only [rateLimitKey, String.data_append] at hdata
  have hrepr : (Nat.repr a).data = (Nat.repr b).data := List.append_cancel_left hdata
  have := congrArg digitsValue hrepr
  rwa [digitsValue_repr, digitsValue_repr] at this

theorem run_frame (c : RedisClient) (cmd : RedisCmd) (key k : String)
    (hcmd : cmd = RedisCmd.incr key ∨ ∃ secs, cmd = RedisCmd.expire key secs)
    (hk : k ≠ key) : (c.run cmd).1.store k = c.store k := by
  rcases hcmd with h | ⟨secs, h⟩
  · subst h
    cases hs : c.store key with
    | none => simp [RedisClient.run, hs, hk]
    | some e =>
      by_cases hmax : maxInt64 ≤ e.value
      · simp [RedisClient.run, hs, hmax]
      · simp [RedisClient.run, hs, hmax, hk]
  · subst h
    cases hs : c.store key with
    | none => simp [RedisClient.run, hs]
    | some e => simp [RedisClient.run, hs, hk]

theorem Exec_frame (c : RedisClient) (key k : String) (secs : Nat) (hk : k ≠ key) :
    (c.Exec [RedisCmd.incr key, RedisCmd.expire key secs]).1.store k = c.store k := by
  by_cases hp : c.pipeDown = true
  · simp [RedisClient.Exec, hp]
  · simp only [RedisClient.Exec, hp, RedisClient.runAll]
    simp only [Bool.false_eq_true, if_false]
    rw [run_frame _ _ key k (Or.inr ⟨secs, rfl⟩) hk, run_frame _ _ key k (Or.inl rfl) hk]

theorem checkRateLimit_frame (c c' : RedisClient) (keyID : Nat) (limit : Int) (k : String)
    (h : (checkRateLimit ⟨some c⟩ keyID limit).2.redisClient = some c')
    (hk : k ≠ rateLimitKey keyID) : c'.store k = c.store k := by
  unfold checkRateLimit at h
  simp only at h
  split at h
  · simp at h; rw [← h]
  · split at h
    · simp at h; rw [← h]
    · simp at h
      rw [← h]
      exact Exec_frame c (rateLimitKey keyID) k hourSeconds hk

/-- C20: distinct key identifiers have distinct counter keys; a call for one
identifier leaves the entry (counter and expiry) of every other key of the
store as it was; and a call that answers `false` because the count it read
has reached the limit leaves the whole store as it was. -/
theorem rate_limit_state_isolated :
    (∀ a b : Nat, a ≠ b → rateLimitKey a ≠ rateLimitKey b) ∧
    (∀ (c c' : RedisClient) (keyID : Nat) (limit : Int) (k : String),
      (checkRateLimit ⟨some c⟩ keyID limit).2.redisClient = some c' →
      k ≠ rateLimitKey keyID → c'.store k = c.store k) ∧
    (∀ (c c' : RedisClient) (keyID other : Nat) (limit : Int),
      (checkRateLimit ⟨some c⟩ keyID limit).2.redisClient = some c' →
      other ≠ keyID → c'.store (rateLimitKey other) = c.store (rateLimitKey other)) ∧
    (∀ (keyID : Nat) (limit : Int), (checkRateLimit ⟨none⟩ keyID limit).2.redisClient = none) ∧
    (∀ (c : RedisClient) (keyID : Nat) (limit : Int), c.readDown = false →
      limit ≤ (c.GetInt (rateLimitKey keyID)).1 →
      checkRateLimit ⟨some c⟩ keyID limit = (false, ⟨some c⟩)) := by
  refine ⟨?_, ?_, ?_, ?_, ?_⟩
  · intro a b hab h
    exact hab (rateLimitKey_injective a b h)
  · intro c c' keyID limit k h hk
    exact checkRateLimit_frame c c' keyID limit k h hk
  · intro c c' keyID other limit h hne
    apply checkRateLimit_frame c c' keyID limit _ h
    intro heq
    exact hne (rateLimitKey_injective other keyID heq)
  · intro keyID limit
    simp [checkRateLimit]
  · intro c keyID limit hr hge
    cases hs : c.store (rateLimitKey keyID) with
    | none =>
      simp [RedisClient.GetInt, hr, hs] at hge
      simp [checkRateLimit, RedisClient.GetInt, hr, hs, hge]
    | some e =>
      simp [RedisClient.GetInt, hr, hs] at hge
      simp [checkRateLimit, RedisClient.GetInt, hr, hs, hge]

/-! ## Concurrent calls -/

/-- C16 (counterexample): with limit 1, two calls whose reads both run before
either pipeline both return `true`. -/
theorem interleaved_calls_exceed_limit :
    admittedCount
      (runSchedule 1 1 [0, 1, 0, 1] (emptyRedis, [CallState.ready, CallState.ready])).2 = 2 := by
  decide

theorem stepCall_twice (keyID : Nat) (limit : Int) (c : RedisClient) :
    ∃ c2, checkRateLimit ⟨some c⟩ keyID limit =
        ((checkRateLimit ⟨some c⟩ keyID limit).1, ⟨some c2⟩) ∧
      stepCall keyID limit (stepCall keyID limit c CallState.ready).2
          (stepCall keyID limit c CallState.ready).1 =
        (CallState.returned (checkRateLimit ⟨some c⟩ keyID limit).1, c2) := by
  by_cases h1 : (c.GetInt (rateLimitKey keyID)).2 ≠ none ∧
      (c.GetInt (rateLimitKey keyID)).2 ≠ some RedisError.Nil
  · exact ⟨c, by simp [checkRateLimit, h1], by simp [checkRateLimit, stepCall, h1]⟩
  · by_cases h2 : limit ≤ (c.GetInt (rateLimitKey keyID)).1
    · exact ⟨c, by simp [checkRateLimit, h1, h2], by simp [checkRateLimit, stepCall, h1, h2]⟩
    · exact ⟨(c.Exec [RedisCmd.incr (rateLimitKey keyID),
          RedisCmd.expire (rateLimitKey keyID) hourSeconds]).1,
        by simp [checkRateLimit, h1, h2], by simp [checkRateLimit, stepCall, h1, h2]⟩

theorem get_after_done (done : List CallState) (x : CallState) (tail : List CallState) :
    (done ++ x :: tail).get? done.length = some x := by
  induction done with
  | nil => rfl
  | cons d ds ih => simpa using ih

theorem set_after_done (done : List CallState) (x y : CallState) (tail : List CallState) :
    (done ++ x :: tail).set done.length y = done ++ y :: tail := by
  induction done with
  | nil => rfl
  | cons d ds ih => simp

theorem runSchedule_two_steps (keyID : Nat) (limit : Int) (c : RedisClient)
    (done : List CallState) (n : Nat) (rest : List Nat) :
    ∃ c2, checkRateLimit ⟨some c⟩ keyID limit =
        ((checkRateLimit ⟨some c⟩ keyID limit).1, ⟨some c2⟩) ∧
      runSchedule keyID limit (done.length :: done.length :: rest)
          (c, done ++ CallState.ready :: List.replicate n CallState.ready) =
        runSchedule keyID limit rest
          (c2, (done ++ [CallState.returned (checkRateLimit ⟨some c⟩ keyID limit).1]) ++
            List.replicate n CallState.ready) := by
  obtain ⟨c2, hc2, hstep⟩ := stepCall_twice keyID limit c
  refine ⟨c2, hc2, ?_⟩
  rw [runSchedule, get_after_done]
  simp only [set_after_done]
  rw [runSchedule, get_after_done]
  simp only [set_after_done, hstep, List.append_assoc, List.singleton_append]

theorem runSchedule_serial (keyID : Nat) (limit : Int) :
    ∀ (n : Nat) (c : RedisClient) (done : List CallState),
      (runSchedule keyID limit (serialSchedule done.length n)
          (c, done ++ List.replicate n CallState.ready)).2 =
        done ++ (successiveCalls keyID limit n ⟨some c⟩).map CallState.returned := by
  intro n
  induction n with
  | zero => intro c done; simp [serialSchedule, runSchedule, successiveCalls]
  | succ n ih =>
    intro c done
    obtain ⟨c2, hc2, hrun⟩ :=
      runSchedule_two_steps keyID limit c done n (serialSchedule (done.length + 1) n)
    have hih := ih c2 (done ++ [CallState.returned (checkRateLimit ⟨some c⟩ keyID limit).1])
    simp only [List.length_append, List.length_singleton] at hih
    simp only [serialSchedule, List.replicate_succ]
    rw [hrun, hih]
    have hsnd : (checkRateLimit ⟨some c⟩ keyID limit).2 = ⟨some c2⟩ := by
      rw [hc2]
    simp [successiveCalls, hsnd]

/-- C16 (amended): the read with its check and the increment/expire pipeline
are two store operations of a call; when the calls for one key run one after
another against a healthy store whose counter starts absent, the number of
calls that return `true` is the smaller of the number of calls and the limit,
so it never exceeds the limit. -/
theorem serial_calls_within_limit (c : RedisClient) (keyID : Nat) (limit : Int) (n : Nat)
    (hc : c.healthy) (habsent : c.store (rateLimitKey keyID) = none)
    (h0 : 0 ≤ limit) (hmax : limit ≤ maxInt64) :
    admittedCount
        (runSchedule keyID limit (serialSchedule 0 n)
          (c, List.replicate n CallState.ready)).2 = min n limit.toNat ∧
      admittedCount
        (runSchedule keyID limit (serialSchedule 0 n)
          (c, List.replicate n CallState.ready)).2 ≤ limit.toNat := by
  have hrun := runSchedule_serial keyID limit n c []
  simp only [List.length_nil, List.nil_append] at hrun
  have hk : (c.GetInt (rateLimitKey keyID)).1 + ((limit.toNat : Nat) : Int) = limit := by
    have hr : c.readDown = false := hc.1
    simp [RedisClient.GetInt, hr, habsent, Int.toNat_of_nonneg h0]
  have hcalls := successiveCalls_remaining keyID limit hmax n c limit.toNat hc hk
  have hcount : admittedCount
      (runSchedule keyID limit (serialSchedule 0 n)
        (c, List.replicate n CallState.ready)).2 = min n limit.toNat := by
    rw [hrun, hcalls]
    simp [admittedCount, List.count_append, List.count_replicate]
  exact ⟨hcount, by rw [hcount]; exact Nat.min_le_right _ _⟩

theorem serial_calls_within_limit_witness :
    emptyRedis.healthy ∧ emptyRedis.store (rateLimitKey 1) = none ∧
      (0 : Int) ≤ 1 ∧ (1 : Int) ≤ maxInt64 ∧
      admittedCount
        (runSchedule 1 1 (serialSchedule 0 2)
          (emptyRedis, List.replicate 2 CallState.ready)).2 = 1 :=
  ⟨⟨rfl, rfl⟩, rfl, by decide, by decide,
    (serial_calls_within_limit emptyRedis 1 1 2 ⟨rfl, rfl⟩ rfl (by decide) (by decide)).1⟩

end SeenticsEmail
